import Mathlib

/-
Verification of the MCMC/STUN sampler (sampler.py).

The sampler advances an ensemble of trajectories, each a fixed-capacity
list of symbol codes with trailing zero padding.  Python floats are
modelled as real numbers, numpy integer arrays as lists of naturals
(or integers where the source draws negative values), and the mutable
Sampler object as an explicit state record.  The scoring model is an
external collaborator and is modelled as an opaque function argument.
Debug-only record fields (temprec, accrec, stunrec, scorerec, enrec,
varrec) are omitted: they are written only under the debug flag and read
by nothing in scope.
-/

open Classical

set_option maxHeartbeats 1000000

/-- Dataset parameters read from config_main.dataset in the source. -/
structure DatasetConfig where
  dict_size : ℕ
  min_length : ℕ
  max_length : ℕ
  variable_length : Bool

/-- Immutable run parameters: dataset config, per-trajectory STUN gammas
and the record margin (self.recordMargin, 0.2 in the source). -/
structure RunParams where
  ds : DatasetConfig
  gammas : List ℝ
  recordMargin : ℝ

/-- Mutable state of the Sampler object.  Field names follow the Python
attributes. -/
structure SamplerState where
  nruns : ℕ
  config : List (List ℕ)
  E0 : List ℝ
  absMin : ℝ
  temperature : List ℝ
  temp0 : ℝ
  optima : List (List ℝ)
  enAtOptima : List (List ℝ)
  varAtOptima : List (List ℝ)
  optimalSamples : List (List (List ℕ))
  optimalInds : List (List ℕ)
  recInds : List (List ℕ)
  newOptima : List (List (List ℕ))
  newOptimaEn : List (List ℝ)
  allOptimalConfigs : List (List ℕ)
  resetInd : List ℕ
  acceptanceRate : List ℝ
  STUN : Bool
  E0init : Bool

/-- Per-iteration random draws, one entry per trajectory: the slice at the
current index of spinRandints, pickSpinRandint, changeLengthRandints,
seqExtensionRandints and alphaRandoms. -/
structure Draws where
  pickPos : List ℕ
  spinSym : List ℕ
  changeDir : List ℤ
  extSym : List ℕ
  alpha : List ℝ

/-- Result of one getScores call: (score, energy, variance), each a pair
of per-trajectory lists, first component for the proposed ensemble and
second for the current ensemble. -/
structure ScoreTriple where
  scores : List ℝ × List ℝ
  energy : List ℝ × List ℝ
  variance : List ℝ × List ℝ

/-- Last n elements of a list, as the Python slice l[-n:]. -/
def lastN (n : ℕ) (l : List α) : List α := l.drop (l.length - n)

/-- Minimum of a list of reals, as Python min on a nonempty sequence
(0 as a junk value on the empty list, which the source never passes). -/
noncomputable def listMin : List ℝ → ℝ
  | [] => 0
  | a :: rest => if rest.isEmpty then a else min a (listMin rest)

/-- Count of nonzero entries, as np.count_nonzero. -/
def nnzCount (s : List ℕ) : ℕ := s.countP (fun x => decide (x ≠ 0))

/-- Length of the leading run of nonzero symbols: the active length of a
padded sequence. -/
def activeLen (s : List ℕ) : ℕ := (s.takeWhile (fun x => decide (x ≠ 0))).length

/-- Specification predicate for the sequence-representation invariant:
full capacity max_length, active (nonzero-prefix) length between
min_length and max_length, and every position at or beyond the active
length is zero (suffix-only padding). -/
def ValidSeq (ds : DatasetConfig) (s : List ℕ) : Prop :=
  s.length = ds.max_length ∧
  ds.min_length ≤ activeLen s ∧ activeLen s ≤ ds.max_length ∧
  ∀ j < s.length, activeLen s ≤ j → s.getD j 0 = 0

/-- ValidSeq is decidable by direct evaluation. -/
instance (ds : DatasetConfig) (s : List ℕ) : Decidable (ValidSeq ds s) :=
  decidable_of_iff (s.length = ds.max_length ∧
    ds.min_length ≤ activeLen s ∧ activeLen s ≤ ds.max_length ∧
    ∀ j < s.length, activeLen s ≤ j → s.getD j 0 = 0) Iff.rfl

/-- makeAConfig: a random config with appropriate padding.  randChainLen
is the np.random.randint(min_length, max_length) draw and randSyms j the
uniform symbol draw for position j (in 1..dict_size). -/
def makeAConfig (ds : DatasetConfig) (randChainLen : ℕ) (randSyms : ℕ → ℕ) : List ℕ :=
  if ds.variable_length then
    (List.range ds.max_length).map (fun j => if j < randChainLen then randSyms j else 0)
  else
    (List.range ds.max_length).map randSyms

/-- propConfigs, body for one trajectory: overwrite the draw-selected
position with the draw-selected symbol, then apply the length-change
draw.  The contraction test is kept exactly as the source writes it
(elif nnz == -1, comparing the nonzero count to -1). -/
def propOne (ds : DatasetConfig) (s : List ℕ) (pickPos spinSym : ℕ)
    (changeDir : ℤ) (extSym : ℕ) : List ℕ :=
  let s1 := s.set pickPos spinSym
  if ds.variable_length then
    if changeDir = 0 then s1
    else
      let nnz := nnzCount s1
      if changeDir = 1 then
        if nnz < ds.max_length then s1.set nnz extSym else s1
      else if (nnz : ℤ) = -1 then
        if ds.min_length < nnz then s1.set (nnz - 1) 0 else s1
      else s1
  else s1

/-- propConfigs over the whole ensemble: one propOne per trajectory. -/
def propConfigs (ds : DatasetConfig) (nruns : ℕ) (config : List (List ℕ))
    (d : Draws) : List (List ℕ) :=
  (List.range nruns).map (fun i =>
    propOne ds (config.getD i []) (d.pickPos.getD i 0) (d.spinSym.getD i 0)
      (d.changeDir.getD i 0) (d.extSym.getD i 0))

/-- computeSTUN: 1 - exp(-gammas * (scores - absMin)), elementwise over
trajectories. -/
noncomputable def computeSTUN (gammas : List ℝ) (absMin : ℝ) (scores : List ℝ) : List ℝ :=
  List.zipWith (fun g s => 1 - Real.exp (-g * (s - absMin))) gammas scores

/-- getDE: in STUN mode the difference of the STUN-transformed score
rows, otherwise the raw score difference.  (The returned F value of the
source is only read by debug recording and is not modelled.) -/
noncomputable def getDE (stun : Bool) (gammas : List ℝ) (absMin : ℝ)
    (scores0 scores1 : List ℝ) : List ℝ :=
  if stun then
    List.zipWith (fun a b => a - b) (computeSTUN gammas absMin scores0)
      (computeSTUN gammas absMin scores1)
  else
    List.zipWith (fun a b => a - b) scores0 scores1

/-- acceptanceRatio: np.minimum(1, np.exp(-DE / temperature)). -/
noncomputable def acceptanceRatio (DE temperature : List ℝ) : List ℝ :=
  List.zipWith (fun de t => min 1 (Real.exp (-de / t))) DE temperature

/-- numEqPositions: positionwise equality count between two sequences,
as np.sum(a == b, axis=1) for one pool row. -/
def numEqPositions (a b : List ℕ) : ℕ :=
  (List.zip a b).countP (fun x => decide (x.1 = x.2))

/-- InPool: some pool row agrees with p on p.length positions, as
any(equals == propConfig[ind].shape[-1]). -/
def InPool (pool : List (List ℕ)) (p : List ℕ) : Prop :=
  ∃ c ∈ pool, numEqPositions c p = p.length

/-- InPool is decidable by direct evaluation. -/
instance (pool : List (List ℕ)) (p : List ℕ) : Decidable (InPool pool p) :=
  decidable_of_iff (∃ c ∈ pool, numEqPositions c p = p.length) Iff.rfl

/-- saveOptima for trajectory ind: seed the global dedup pool from the
per-trajectory optimal samples at its first use, record the proposal
when it is absent from the pool or is a new best, and on a new best
update E0, absMin and the new-best history. -/
noncomputable def saveOptima (p : List ℕ) (sc en va : ℝ) (iter ind : ℕ)
    (newBest : Prop) (st : SamplerState) : SamplerState :=
  let pool := if st.allOptimalConfigs.isEmpty then st.optimalSamples.flatten
              else st.allOptimalConfigs
  let st1 := { st with allOptimalConfigs := pool }
  let st2 :=
    if ¬ InPool pool p ∨ newBest then
      { st1 with
        optima := st1.optima.set ind (st1.optima.getD ind [] ++ [sc]),
        enAtOptima := st1.enAtOptima.set ind (st1.enAtOptima.getD ind [] ++ [en]),
        varAtOptima := st1.varAtOptima.set ind (st1.varAtOptima.getD ind [] ++ [va]),
        optimalSamples := st1.optimalSamples.set ind (st1.optimalSamples.getD ind [] ++ [p]),
        allOptimalConfigs := st1.allOptimalConfigs ++ [p] }
    else st1
  if newBest then
    let E0n := st2.E0.set ind sc
    { st2 with
      E0 := E0n,
      absMin := if E0n.getD ind 0 < st2.absMin then E0n.getD ind 0 else st2.absMin,
      newOptima := st2.newOptima.set ind (st2.newOptima.getD ind [] ++ [p]),
      newOptimaEn := st2.newOptimaEn.set ind (st2.newOptimaEn.getD ind [] ++ [en]),
      optimalInds := st2.optimalInds.set ind (st2.optimalInds.getD ind [] ++ [iter]) }
  else st2

/-- updateConfigs, body for one trajectory: Metropolis test against the
fresh uniform draw; on accept copy the proposal into the current config,
record the acceptance iteration, and run the new-best / record-margin
check. -/
noncomputable def updateOne (recordMargin : ℝ) (prop : List (List ℕ))
    (scores0 energy0 var0 alphas ratio : List ℝ) (iter : ℕ)
    (st : SamplerState) (i : ℕ) : SamplerState :=
  if alphas.getD i 0 < ratio.getD i 0 then
    let st1 := { st with
      config := st.config.set i (prop.getD i []),
      recInds := st.recInds.set i (st.recInds.getD i [] ++ [iter]) }
    if scores0.getD i 0 < st1.E0.getD i 0 ∨
        (st1.E0.getD i 0 - scores0.getD i 0) / st1.E0.getD i 0 < recordMargin then
      saveOptima (prop.getD i []) (scores0.getD i 0) (energy0.getD i 0)
        (var0.getD i 0) iter i (scores0.getD i 0 < st1.E0.getD i 0) st1
    else st1
  else st

/-- updateConfigs: the accept/reject loop over all trajectories. -/
noncomputable def updateConfigs (recordMargin : ℝ) (prop : List (List ℕ))
    (scores0 energy0 var0 alphas ratio : List ℝ) (iter : ℕ)
    (st : SamplerState) : SamplerState :=
  (List.range st.nruns).foldl
    (updateOne recordMargin prop scores0 energy0 var0 alphas ratio iter) st

/-- initOptima: lazy initialization of the best-score bookkeeping from
the first score evaluation (E0 := scores[1], the current-ensemble row). -/
noncomputable def initOptima (t : ScoreTriple) (st : SamplerState) : SamplerState :=
  { st with
    optima := (List.range st.nruns).map (fun i => [t.scores.2.getD i 0]),
    enAtOptima := (List.range st.nruns).map (fun i => [t.energy.2.getD i 0]),
    varAtOptima := (List.range st.nruns).map (fun i => [t.variance.2.getD i 0]),
    optimalSamples := (List.range st.nruns).map (fun i => [st.config.getD i []]),
    optimalInds := (List.range st.nruns).map (fun _ => [0]),
    recInds := (List.range st.nruns).map (fun _ => ([] : List ℕ)),
    newOptima := (List.range st.nruns).map (fun i => [st.config.getD i []]),
    newOptimaEn := (List.range st.nruns).map (fun i => [t.energy.2.getD i 0]),
    allOptimalConfigs := [],
    E0 := t.scores.2,
    absMin := listMin t.scores.2,
    E0init := true }

/-- iterate: propose, score (through the external model gs), lazily
initialize the optimum tracker, compute the acceptance ratio and run
updateConfigs. -/
noncomputable def iterate (P : RunParams)
    (gs : List (List ℕ) → List (List ℕ) → ScoreTriple)
    (d : Draws) (iter : ℕ) (st : SamplerState) : SamplerState :=
  let prop := propConfigs P.ds st.nruns st.config d
  let t := gs prop st.config
  let st1 := if st.E0init then st else initOptima t st
  let DE := getDE st1.STUN P.gammas st1.absMin t.scores.1 t.scores.2
  let ratio := acceptanceRatio DE st1.temperature
  updateConfigs P.recordMargin prop t.scores.1 t.energy.1 t.variance.1
    d.alpha ratio iter st1

/-- updateAnnealing, body for one trajectory: rolling acceptance rate
over the last 100 recorded acceptance iterations, semi-stochastic
temperature modulation against the target acceptance rate, and the
stagnation check against the last reset and the last optimalInds entry.
freshLens and freshSyms supply the makeAConfig draws of resetConfig. -/
noncomputable def updateAnnealingOne (ds : DatasetConfig) (targetRate : ℝ)
    (iter : ℕ) (Us : List ℝ) (freshLens : List ℕ) (freshSyms : ℕ → ℕ → ℕ)
    (st : SamplerState) (i : ℕ) : SamplerState :=
  let acceptedRecently : ℕ :=
    (lastN 100 (st.recInds.getD i [])).countP
      (fun r : ℕ => decide ((iter : ℤ) - (r : ℤ) < 100))
  let st1 := { st with
    acceptanceRate := st.acceptanceRate.set i ((acceptedRecently : ℝ) / 100) }
  let st2 :=
    if st1.acceptanceRate.getD i 0 < targetRate then
      { st1 with temperature :=
          st1.temperature.set i (st1.temperature.getD i 0 * (1 + Us.getD i 0)) }
    else
      { st1 with temperature :=
          st1.temperature.set i (st1.temperature.getD i 0 * (1 - Us.getD i 0)) }
  if 1000 < (iter : ℤ) - (st2.resetInd.getD i 0 : ℤ) ∧
      1000 < (iter : ℤ) - (((st2.optimalInds.getD i []).getLastD 0 : ℤ)) then
    { st2 with
      resetInd := st2.resetInd.set i iter,
      config := st2.config.set i (makeAConfig ds (freshLens.getD i 0) (freshSyms i)),
      temperature := st2.temperature.set i st2.temp0 }
  else st2

/-- updateAnnealing: the annealing controller loop over all
trajectories. -/
noncomputable def updateAnnealing (ds : DatasetConfig) (targetRate : ℝ)
    (iter : ℕ) (Us : List ℝ) (freshLens : List ℕ) (freshSyms : ℕ → ℕ → ℕ)
    (st : SamplerState) : SamplerState :=
  (List.range st.nruns).foldl
    (updateAnnealingOne ds targetRate iter Us freshLens freshSyms) st

/-- runSteps f T s applies the step function at indices 0, ..., T-1 in
order, as a Python for-loop over range(T). -/
def runSteps {S : Type _} (f : ℕ → S → S) : ℕ → S → S
  | 0, s => s
  | k + 1, s => f k (runSteps f k s)

/-- One iteration of the postSampleAnnealing loop: iterate, then cut
every temperature by the factor 0.99. -/
noncomputable def psaStep (P : RunParams)
    (gs : List (List ℕ) → List (List ℕ) → ScoreTriple)
    (draws : ℕ → Draws) (k : ℕ) (st : SamplerState) : SamplerState :=
  let st1 := iterate P gs (draws k) k st
  { st1 with temperature := st1.temperature.map (fun t => t * 0.99) }

/-- postSampleAnnealing: disable STUN, overwrite the configs with the
caller-provided initial sequences, start every trajectory at the fixed
low temperature 0.01, and run T iterations with geometric temperature
decay and no adaptive control. -/
noncomputable def postSampleAnnealing (P : RunParams)
    (gs : List (List ℕ) → List (List ℕ) → ScoreTriple)
    (draws : ℕ → Draws) (initConfigs : List (List ℕ)) (T : ℕ)
    (st : SamplerState) : SamplerState :=
  runSteps (psaStep P gs draws) T
    { st with
      STUN := false,
      nruns := initConfigs.length,
      temp0 := 0.01,
      temperature := List.replicate initConfigs.length (0.01 : ℝ),
      config := initConfigs,
      resetInd := List.replicate initConfigs.length 0,
      acceptanceRate := List.replicate initConfigs.length (0 : ℝ) }

/-- Dataset configuration used by the concrete test states. -/
def ds4 : DatasetConfig :=
  { dict_size := 4, min_length := 1, max_length := 4, variable_length := true }

/-- Concrete one-trajectory sampler state used by witnesses and
counterexamples. -/
noncomputable def st0 : SamplerState :=
  { nruns := 1, config := [[1, 2]], E0 := [10], absMin := 1,
    temperature := [1], temp0 := 0.1,
    optima := [[10]], enAtOptima := [[0]], varAtOptima := [[0]],
    optimalSamples := [[[1, 2]]], optimalInds := [[0]], recInds := [[]],
    newOptima := [[[1, 2]]], newOptimaEn := [[0]],
    allOptimalConfigs := [[1, 2]],
    resetInd := [0], acceptanceRate := [0],
    STUN := true, E0init := true }

/-- Concrete state whose dedup pool does not contain the proposal, used
by the stagnation counterexample. -/
noncomputable def st6 : SamplerState :=
  { st0 with allOptimalConfigs := [[9, 9]], optimalSamples := [[[9, 9]]] }

/-- Concrete state with best score E0 = 0, used by the
division-by-zero analysis. -/
noncomputable def st9 : SamplerState :=
  { st0 with
    E0 := [0]
    allOptimalConfigs := [[9, 9]]
    optimalSamples := [[[9, 9]]] }

/-- Reading a set list at the written index returns the written value. -/
theorem getD_set_self {α : Type _} (l : List α) (i : ℕ) (a d : α)
    (h : i < l.length) : (l.set i a).getD i d = a := by
  rw [List.getD_eq_getElem _ _ (by simpa using h)]
  exact List.getElem_set_self _

/-- Reading a set list away from the written index is unchanged. -/
theorem getD_set_ne {α : Type _} (l : List α) (i j : ℕ) (a d : α)
    (h : j ≠ i) : (l.set i a).getD j d = l.getD j d := by
  by_cases hj : j < l.length
  · rw [List.getD_eq_getElem _ _ (by simpa using hj), List.getD_eq_getElem _ _ hj]
    exact List.getElem_set_ne (Ne.symm h) _
  · rw [List.getD_eq_default _ _ (by simpa using not_lt.1 hj),
      List.getD_eq_default _ _ (not_lt.1 hj)]

/-- getD through zipWith at an in-range index. -/
theorem getD_zipWith {α β γ : Type _} (f : α → β → γ) (l1 : List α)
    (l2 : List β) (i : ℕ) (d1 : α) (d2 : β) (d3 : γ)
    (h1 : i < l1.length) (h2 : i < l2.length) :
    (List.zipWith f l1 l2).getD i d3 = f (l1.getD i d1) (l2.getD i d2) := by
  rw [List.getD_eq_getElem _ _ (by rw [List.length_zipWith]; exact lt_min h1 h2),
    List.getD_eq_getElem _ _ h1, List.getD_eq_getElem _ _ h2]
  exact List.getElem_zipWith

/-- getD of a mapped range. -/
theorem getD_range_map {α : Type _} (f : ℕ → α) (n j : ℕ) (d : α) :
    ((List.range n).map f).getD j d = if j < n then f j else d := by
  by_cases h : j < n
  · rw [List.getD_eq_getElem _ _ (by simpa using h)]
    simp [h]
  · rw [List.getD_eq_default _ _ (by simpa using not_lt.1 h)]
    simp [h]

/-- Folding a per-index step that leaves an observation g unchanged
leaves g unchanged. -/
theorem foldl_invar {S α : Type _} (f : S → ℕ → S) (g : S → α) (L : List ℕ)
    (h : ∀ j ∈ L, ∀ s, g (f s j) = g s) : ∀ st : S, g (L.foldl f st) = g st := by
  induction L with
  | nil => intro st; rfl
  | cons a t ih =>
    intro st
    rw [List.foldl_cons, ih (fun j hj s => h j (List.mem_cons_of_mem a hj) s),
      h a (List.mem_cons_self a t) st]

/-- Folding a step that only appends to a list observation g only
appends to g. -/
theorem foldl_grows {S : Type _} (f : S → ℕ → S) (g : S → List (List ℕ))
    (h : ∀ j s, ∃ t, g (f s j) = g s ++ t) (L : List ℕ) :
    ∀ st : S, ∃ t, g (L.foldl f st) = g st ++ t := by
  induction L with
  | nil => intro st; exact ⟨[], by simp⟩
  | cons a l ih =>
    intro st
    obtain ⟨t1, h1⟩ := h a st
    obtain ⟨t2, h2⟩ := ih (f st a)
    exact ⟨t1 ++ t2, by rw [List.foldl_cons, h2, h1, List.append_assoc]⟩

/-- Splitting range n around an interior index i. -/
theorem range_split (n i : ℕ) (h : i < n) :
    List.range n =
      List.range i ++ i :: (List.range (n - i - 1)).map (fun k => i + 1 + k) := by
  conv_lhs => rw [show n = (i + 1) + (n - i - 1) by omega]
  rw [List.range_add, List.range_succ]
  simp

/-- An observation of a fold over range n whose steps away from index i
are g-invariant reduces to the step at i applied after the prefix
fold. -/
theorem foldl_range_at {S α : Type _} (f : S → ℕ → S) (g : S → α)
    (n i : ℕ) (hi : i < n)
    (hframe : ∀ j, j ≠ i → ∀ s, g (f s j) = g s) (st : S) :
    g ((List.range n).foldl f st) = g (f ((List.range i).foldl f st) i) := by
  rw [range_split n i hi, List.foldl_append, List.foldl_cons]
  exact foldl_invar f g _
    (fun j hj s => hframe j
      (by obtain ⟨k, _, rfl⟩ := List.mem_map.1 hj; omega) s) _

/-- A fold over range i leaves a g-invariant observation unchanged when
every index below i is g-invariant; specialized form for prefixes. -/
theorem foldl_range_lt {S α : Type _} (f : S → ℕ → S) (g : S → α)
    (i : ℕ) (hframe : ∀ j, j ≠ i → ∀ s, g (f s j) = g s) (st : S) :
    g ((List.range i).foldl f st) = g st :=
  foldl_invar f g _
    (fun j hj s => hframe j (by have := List.mem_range.1 hj; omega) s) st

/-- activeLen of a cons. -/
theorem activeLen_cons (a : ℕ) (t : List ℕ) :
    activeLen (a :: t) = if a ≠ 0 then activeLen t + 1 else 0 := by
  by_cases h : a = 0 <;> simp [activeLen, List.takeWhile_cons, h]

/-- activeLen never exceeds the list length. -/
theorem activeLen_le_length (s : List ℕ) : activeLen s ≤ s.length := by
  induction s with
  | nil => simp [activeLen]
  | cons a t ih =>
    rw [activeLen_cons]
    split
    · simpa using ih
    · simp

/-- Positions inside the active prefix are nonzero. -/
theorem activeLen_pos_getD (s : List ℕ) :
    ∀ j < activeLen s, s.getD j 0 ≠ 0 := by
  induction s with
  | nil => simp [activeLen]
  | cons a t ih =>
    intro j hj
    rw [activeLen_cons] at hj
    by_cases ha : a = 0
    · simp [ha] at hj
    · simp only [ha, ne_eq, not_false_eq_true, if_true] at hj
      cases j with
      | zero => simpa using ha
      | succ n => simpa using ih n (by omega)

/-- The position right after the active prefix is zero when it exists. -/
theorem activeLen_zero_getD (s : List ℕ) (h : activeLen s < s.length) :
    s.getD (activeLen s) 0 = 0 := by
  induction s with
  | nil => simp [activeLen] at h
  | cons a t ih =>
    rw [activeLen_cons] at h ⊢
    by_cases ha : a = 0
    · simp [ha]
    · simp only [ha, ne_eq, not_false_eq_true, if_true] at h ⊢
      simpa using ih (by simpa using h)

/-- Characterization of activeLen from pointwise facts. -/
theorem activeLen_eq_of (s : List ℕ) (k : ℕ) (hk : k ≤ s.length)
    (h1 : ∀ j < k, s.getD j 0 ≠ 0) (h2 : k < s.length → s.getD k 0 = 0) :
    activeLen s = k := by
  induction s generalizing k with
  | nil =>
    simp only [List.length_nil, Nat.le_zero] at hk
    subst hk
    simp [activeLen]
  | cons a t ih =>
    rw [activeLen_cons]
    cases k with
    | zero =>
      have ha : a = 0 := by simpa using h2 (by simp)
      simp [ha]
    | succ m =>
      have ha : a ≠ 0 := by simpa using h1 0 (by omega)
      simp only [ha, ne_eq, not_false_eq_true, if_true, Nat.succ_eq_add_one,
        Nat.add_right_cancel_iff]
      exact ih m (by simpa using hk)
        (fun j hj => by simpa using h1 (j + 1) (by omega))
        (fun hm => by simpa using h2 (by simpa using hm))

/-- With suffix-only padding the nonzero count equals the active
length. -/
theorem nnzCount_eq_activeLen (s : List ℕ)
    (h : ∀ j < s.length, activeLen s ≤ j → s.getD j 0 = 0) :
    nnzCount s = activeLen s := by
  induction s with
  | nil => rfl
  | cons a t ih =>
    rw [activeLen_cons] at h ⊢
    by_cases ha : a = 0
    · simp only [ha, ne_eq, not_true_eq_false, if_false] at h ⊢
      have hz : ∀ x ∈ (0 : ℕ) :: t, x = 0 := by
        intro x hx
        obtain ⟨n, hn, hget⟩ := List.getElem_of_mem hx
        have := h n hn (by omega)
        rw [List.getD_eq_getElem _ _ hn] at this
        rw [← hget]; exact this
      unfold nnzCount
      rw [List.countP_eq_zero.2 (by intro x hx; simpa using hz x hx)]
    · simp only [ha, ne_eq, not_false_eq_true, if_true] at h ⊢
      have ht : nnzCount t = activeLen t := by
        refine ih (fun j hj haj => ?_)
        simpa using h (j + 1) (by simp only [List.length_cons]; omega) (by omega)
      unfold nnzCount at ht ⊢
      rw [List.countP_cons, ht]
      simp [ha]

/-- Writing a nonzero symbol inside the active prefix does not change
the active length. -/
theorem activeLen_set_inside (s : List ℕ) (pick sym : ℕ)
    (hp : pick < activeLen s) (hs : sym ≠ 0) :
    activeLen (s.set pick sym) = activeLen s := by
  have hplen : pick < s.length := lt_of_lt_of_le hp (activeLen_le_length s)
  refine activeLen_eq_of _ _ (by rw [List.length_set]; exact activeLen_le_length s)
    (fun j hj => ?_) (fun hlt => ?_)
  · by_cases hji : j = pick
    · subst hji; rw [getD_set_self _ _ _ _ hplen]; exact hs
    · rw [getD_set_ne _ _ _ _ _ hji]; exact activeLen_pos_getD s j hj
  · rw [List.length_set] at hlt
    rw [getD_set_ne _ _ _ _ _ (by omega)]
    exact activeLen_zero_getD s hlt

/-- ValidSeq is preserved by a nonzero write inside the active prefix. -/
theorem ValidSeq_set_inside (ds : DatasetConfig) (s : List ℕ) (pick sym : ℕ)
    (h : ValidSeq ds s) (hp : pick < activeLen s) (hs : sym ≠ 0) :
    ValidSeq ds (s.set pick sym) := by
  obtain ⟨hlen, hmin, hmax, hpad⟩ := h
  have hal := activeLen_set_inside s pick sym hp hs
  refine ⟨by rwa [List.length_set], by rwa [hal], by rwa [hal], fun j hj haj => ?_⟩
  rw [List.length_set] at hj
  rw [hal] at haj
  rw [getD_set_ne _ _ _ _ _ (by omega)]
  exact hpad j hj haj

/-- ValidSeq is preserved by writing a nonzero extension symbol at the
first padding slot, provided the active length is below capacity; the
active length grows by one. -/
theorem ValidSeq_extend (ds : DatasetConfig) (s : List ℕ) (ext : ℕ)
    (h : ValidSeq ds s) (hx : ext ≠ 0) (hlt : activeLen s < ds.max_length) :
    ValidSeq ds (s.set (activeLen s) ext) := by
  obtain ⟨hlen, hmin, hmax, hpad⟩ := h
  have hallen : activeLen s < s.length := by omega
  have hal : activeLen (s.set (activeLen s) ext) = activeLen s + 1 := by
    refine activeLen_eq_of _ _ (by rw [List.length_set]; omega)
      (fun j hj => ?_) (fun hlt2 => ?_)
    · by_cases hji : j = activeLen s
      · subst hji; rw [getD_set_self _ _ _ _ hallen]; exact hx
      · rw [getD_set_ne _ _ _ _ _ hji]
        exact activeLen_pos_getD s j (by omega)
    · rw [List.length_set] at hlt2
      rw [getD_set_ne _ _ _ _ _ (by omega)]
      exact hpad _ hlt2 (by omega)
  refine ⟨by rwa [List.length_set], by omega, by omega, fun j hj haj => ?_⟩
  rw [List.length_set] at hj
  rw [hal] at haj
  rw [getD_set_ne _ _ _ _ _ (by omega)]
  exact hpad j hj (by omega)

/-- makeAConfig produces a valid padded sequence when the drawn chain
length is within bounds and every drawn symbol is nonzero. -/
theorem ValidSeq_makeAConfig (ds : DatasetConfig) (L : ℕ) (syms : ℕ → ℕ)
    (hminmax : ds.min_length ≤ ds.max_length)
    (hmin : ds.min_length ≤ L) (hmax : L ≤ ds.max_length)
    (hsym : ∀ j < ds.max_length, syms j ≠ 0) :
    ValidSeq ds (makeAConfig ds L syms) := by
  unfold makeAConfig
  by_cases hv : ds.variable_length
  · simp only [hv, if_true]
    have hlen : ((List.range ds.max_length).map
        (fun j => if j < L then syms j else 0)).length = ds.max_length := by simp
    have hal : activeLen ((List.range ds.max_length).map
        (fun j => if j < L then syms j else 0)) = L := by
      refine activeLen_eq_of _ _ (by omega) (fun j hj => ?_) (fun hlt => ?_)
      · rw [getD_range_map]
        have hjm : j < ds.max_length := by omega
        simp only [hjm, if_true, hj, if_true]
        exact hsym j hjm
      · rw [hlen] at hlt
        rw [getD_range_map]
        simp [hlt]
    refine ⟨hlen, by omega, by omega, fun j hj haj => ?_⟩
    rw [hal] at haj
    rw [hlen] at hj
    rw [getD_range_map]
    simp only [hj, if_true]
    rw [if_neg (by omega)]
  · simp only [hv, Bool.false_eq_true, if_false]
    have hlen : ((List.range ds.max_length).map syms).length = ds.max_length := by simp
    have hal : activeLen ((List.range ds.max_length).map syms) = ds.max_length := by
      refine activeLen_eq_of _ _ (by omega) (fun j hj => ?_) (fun hlt => ?_)
      · rw [getD_range_map]
        simp only [hj, if_true]
        exact hsym j hj
      · omega
    refine ⟨hlen, by omega, by omega, fun j hj haj => ?_⟩
    rw [hal] at haj
    rw [hlen] at hj
    omega

/-- A sequence agrees with itself on all positions. -/
theorem numEqPositions_self (p : List ℕ) : numEqPositions p p = p.length := by
  induction p with
  | nil => rfl
  | cons a t ih =>
    unfold numEqPositions at ih ⊢
    simp [List.zip_cons_cons, List.countP_cons, ih]

/-- Positionwise agreement count on a cons pair. -/
theorem numEqPositions_cons (a b : ℕ) (t q : List ℕ) :
    numEqPositions (a :: t) (b :: q) =
      numEqPositions t q + if a = b then 1 else 0 := by
  unfold numEqPositions
  rw [List.zip_cons_cons, List.countP_cons]
  by_cases hab : a = b <;> simp [hab]

/-- The agreement count is bounded by the second length. -/
theorem numEqPositions_le (c p : List ℕ) : numEqPositions c p ≤ p.length := by
  unfold numEqPositions
  calc (c.zip p).countP (fun x => decide (x.1 = x.2))
      ≤ (c.zip p).length := List.countP_le_length _
    _ ≤ p.length := by rw [List.length_zip]; omega

/-- Full positionwise agreement between equal-length sequences is
equality. -/
theorem numEqPositions_eq_iff (c p : List ℕ) (h : c.length = p.length) :
    numEqPositions c p = p.length ↔ c = p := by
  induction c generalizing p with
  | nil =>
    cases p with
    | nil => simp [numEqPositions]
    | cons b q => simp at h
  | cons a t ih =>
    cases p with
    | nil => simp at h
    | cons b q =>
      have hlen : t.length = q.length := by simpa using h
      have hle := numEqPositions_le t q
      rw [numEqPositions_cons]
      by_cases hab : a = b
      · subst hab
        simp only [eq_self_iff_true, if_true, List.length_cons, List.cons.injEq, true_and]
        constructor
        · intro he
          exact (ih q hlen).1 (by omega)
        · rintro rfl
          rw [numEqPositions_self]
      · simp only [if_neg hab, List.length_cons, List.cons.injEq]
        constructor
        · intro he
          exact absurd he (by omega)
        · rintro ⟨rfl, rfl⟩
          exact absurd rfl hab

/-- With uniform row lengths the pool test coincides with list
membership. -/
theorem InPool_iff (pool : List (List ℕ)) (p : List ℕ)
    (h : ∀ c ∈ pool, c.length = p.length) : InPool pool p ↔ p ∈ pool := by
  constructor
  · rintro ⟨c, hc, he⟩
    rw [← (numEqPositions_eq_iff c p (h c hc)).1 he]
    exact hc
  · intro hp
    exact ⟨p, hp, numEqPositions_self p⟩

/-- In a strictly sorted list of naturals, entries grow at least as fast
as their index. -/
theorem sorted_get_add_le (l : List ℕ) (hs : l.Sorted (· < ·)) (j d : ℕ)
    (h : j + d < l.length) :
    l.get ⟨j, by omega⟩ + d ≤ l.get ⟨j + d, h⟩ := by
  induction d with
  | zero => simp
  | succ n ih =>
    have h1 : j + n < l.length := by omega
    have h2 := ih h1
    have h3 : l.get ⟨j + n, h1⟩ < l.get ⟨j + (n + 1), h⟩ :=
      hs.get_strictMono (show (⟨j + n, h1⟩ : Fin l.length) < ⟨j + (n + 1), h⟩
        from by simp only [Fin.lt_def]; omega)
    omega

/-- Entries dropped by the last-100 window of a strictly sorted,
iter-bounded acceptance record fall outside the 100-iteration window. -/
theorem countP_take_window (l : List ℕ) (iter : ℕ) (hs : l.Sorted (· < ·))
    (hb : ∀ r ∈ l, r ≤ iter) :
    (l.take (l.length - 100)).countP
      (fun r : ℕ => decide ((iter : ℤ) - (r : ℤ) < 100)) = 0 := by
  rw [List.countP_eq_zero]
  intro x hx
  obtain ⟨n, hn, hget⟩ := List.getElem_of_mem hx
  have hnm : n < l.length - 100 := by
    have := hn
    rw [List.length_take] at this
    omega
  have hn100 : n + 100 < l.length := by omega
  have hxl : x = l.get ⟨n, by omega⟩ := by
    rw [← hget]
    rw [List.getElem_take]
    simp [List.get_eq_getElem]
  have hgap := sorted_get_add_le l hs n 100 hn100
  have hbound : l.get ⟨n + 100, hn100⟩ ≤ iter :=
    hb _ (List.get_mem l (n + 100) hn100)
  simp only [decide_eq_true_eq, not_lt]
  have : x + 100 ≤ iter := by omega
  omega

/-- The rolling window count over the last 100 recorded acceptances
equals the count over the whole record, for a strictly increasing,
iter-bounded record. -/
theorem countP_lastN_window (l : List ℕ) (iter : ℕ) (hs : l.Sorted (· < ·))
    (hb : ∀ r ∈ l, r ≤ iter) :
    (lastN 100 l).countP (fun r : ℕ => decide ((iter : ℤ) - (r : ℤ) < 100)) =
      l.countP (fun r : ℕ => decide ((iter : ℤ) - (r : ℤ) < 100)) := by
  conv_rhs => rw [← List.take_append_drop (l.length - 100) l]
  rw [List.countP_append, countP_take_window l iter hs hb]
  simp [lastN]

/-- saveOptima does not touch the current configurations. -/
theorem saveOptima_config (p : List ℕ) (sc en va : ℝ) (iter ind : ℕ)
    (nb : Prop) (st : SamplerState) :
    (saveOptima p sc en va iter ind nb st).config = st.config := by
  simp only [saveOptima]
  split_ifs <;> rfl

/-- saveOptima does not touch the acceptance-iteration records. -/
theorem saveOptima_recInds (p : List ℕ) (sc en va : ℝ) (iter ind : ℕ)
    (nb : Prop) (st : SamplerState) :
    (saveOptima p sc en va iter ind nb st).recInds = st.recInds := by
  simp only [saveOptima]
  split_ifs <;> rfl

/-- saveOptima does not touch the temperatures. -/
theorem saveOptima_temperature (p : List ℕ) (sc en va : ℝ) (iter ind : ℕ)
    (nb : Prop) (st : SamplerState) :
    (saveOptima p sc en va iter ind nb st).temperature = st.temperature := by
  simp only [saveOptima]
  split_ifs <;> rfl

/-- saveOptima does not touch temp0, nruns, resetInd, acceptanceRate,
STUN or E0init. -/
theorem saveOptima_misc (p : List ℕ) (sc en va : ℝ) (iter ind : ℕ)
    (nb : Prop) (st : SamplerState) :
    (saveOptima p sc en va iter ind nb st).temp0 = st.temp0 ∧
    (saveOptima p sc en va iter ind nb st).nruns = st.nruns ∧
    (saveOptima p sc en va iter ind nb st).resetInd = st.resetInd ∧
    (saveOptima p sc en va iter ind nb st).acceptanceRate = st.acceptanceRate ∧
    (saveOptima p sc en va iter ind nb st).STUN = st.STUN ∧
    (saveOptima p sc en va iter ind nb st).E0init = st.E0init := by
  simp only [saveOptima]
  split_ifs <;> exact ⟨rfl, rfl, rfl, rfl, rfl, rfl⟩

/-- saveOptima for trajectory ind leaves every other trajectory's
per-trajectory record entries unchanged. -/
theorem saveOptima_frame (p : List ℕ) (sc en va : ℝ) (iter ind : ℕ)
    (nb : Prop) (st : SamplerState) (i : ℕ) (h : i ≠ ind) :
    (saveOptima p sc en va iter ind nb st).E0.getD i 0 = st.E0.getD i 0 ∧
    (saveOptima p sc en va iter ind nb st).optima.getD i [] = st.optima.getD i [] ∧
    (saveOptima p sc en va iter ind nb st).enAtOptima.getD i [] = st.enAtOptima.getD i [] ∧
    (saveOptima p sc en va iter ind nb st).varAtOptima.getD i [] = st.varAtOptima.getD i [] ∧
    (saveOptima p sc en va iter ind nb st).optimalSamples.getD i [] = st.optimalSamples.getD i [] ∧
    (saveOptima p sc en va iter ind nb st).optimalInds.getD i [] = st.optimalInds.getD i [] ∧
    (saveOptima p sc en va iter ind nb st).newOptima.getD i [] = st.newOptima.getD i [] ∧
    (saveOptima p sc en va iter ind nb st).newOptimaEn.getD i [] = st.newOptimaEn.getD i [] := by
  simp only [saveOptima]
  split_ifs <;>
    refine ⟨?_, ?_, ?_, ?_, ?_, ?_, ?_, ?_⟩ <;>
    first
      | rfl
      | exact getD_set_ne _ _ _ _ _ h

/-- saveOptima only appends to the global dedup pool, except that an
empty pool is first seeded. -/
theorem saveOptima_pool_grows (p : List ℕ) (sc en va : ℝ) (iter ind : ℕ)
    (nb : Prop) (st : SamplerState) :
    ∃ t, (saveOptima p sc en va iter ind nb st).allOptimalConfigs =
      st.allOptimalConfigs ++ t := by
  simp only [saveOptima]
  by_cases he : st.allOptimalConfigs.isEmpty
  · have he2 : st.allOptimalConfigs = [] := List.isEmpty_iff.1 he
    rw [he2]
    split_ifs <;> exact ⟨_, rfl⟩
  · simp only [he, Bool.false_eq_true, if_false]
    split_ifs <;>
      first
        | exact ⟨[p], rfl⟩
        | exact ⟨[], by simp⟩

/-- A rejected trajectory leaves updateOne a no-op. -/
theorem updateOne_reject (m : ℝ) (prop : List (List ℕ))
    (s0 e0 v0 al ra : List ℝ) (iter : ℕ) (st : SamplerState) (i : ℕ)
    (h : ¬ al.getD i 0 < ra.getD i 0) :
    updateOne m prop s0 e0 v0 al ra iter st i = st := by
  simp only [updateOne]
  rw [if_neg h]

/-- updateOne does not touch temperature, temp0, nruns, resetInd,
acceptanceRate, STUN or E0init. -/
theorem updateOne_untouched (m : ℝ) (prop : List (List ℕ))
    (s0 e0 v0 al ra : List ℝ) (iter : ℕ) (st : SamplerState) (i : ℕ) :
    (updateOne m prop s0 e0 v0 al ra iter st i).temperature = st.temperature ∧
    (updateOne m prop s0 e0 v0 al ra iter st i).temp0 = st.temp0 ∧
    (updateOne m prop s0 e0 v0 al ra iter st i).nruns = st.nruns ∧
    (updateOne m prop s0 e0 v0 al ra iter st i).resetInd = st.resetInd ∧
    (updateOne m prop s0 e0 v0 al ra iter st i).acceptanceRate = st.acceptanceRate ∧
    (updateOne m prop s0 e0 v0 al ra iter st i).STUN = st.STUN ∧
    (updateOne m prop s0 e0 v0 al ra iter st i).E0init = st.E0init := by
  simp only [updateOne]
  split_ifs <;>
    refine ⟨?_, ?_, ?_, ?_, ?_, ?_, ?_⟩ <;>
    first
      | rfl
      | exact saveOptima_temperature _ _ _ _ _ _ _ _
      | exact (saveOptima_misc _ _ _ _ _ _ _ _).1
      | exact (saveOptima_misc _ _ _ _ _ _ _ _).2.1
      | exact (saveOptima_misc _ _ _ _ _ _ _ _).2.2.1
      | exact (saveOptima_misc _ _ _ _ _ _ _ _).2.2.2.1
      | exact (saveOptima_misc _ _ _ _ _ _ _ _).2.2.2.2.1
      | exact (saveOptima_misc _ _ _ _ _ _ _ _).2.2.2.2.2

/-- updateOne for trajectory i leaves every per-trajectory field of any
other trajectory j unchanged. -/
theorem updateOne_frame (m : ℝ) (prop : List (List ℕ))
    (s0 e0 v0 al ra : List ℝ) (iter : ℕ) (st : SamplerState) (i j : ℕ)
    (h : j ≠ i) :
    (updateOne m prop s0 e0 v0 al ra iter st i).config.getD j [] = st.config.getD j [] ∧
    (updateOne m prop s0 e0 v0 al ra iter st i).recInds.getD j [] = st.recInds.getD j [] ∧
    (updateOne m prop s0 e0 v0 al ra iter st i).E0.getD j 0 = st.E0.getD j 0 ∧
    (updateOne m prop s0 e0 v0 al ra iter st i).optima.getD j [] = st.optima.getD j [] ∧
    (updateOne m prop s0 e0 v0 al ra iter st i).enAtOptima.getD j [] = st.enAtOptima.getD j [] ∧
    (updateOne m prop s0 e0 v0 al ra iter st i).varAtOptima.getD j [] = st.varAtOptima.getD j [] ∧
    (updateOne m prop s0 e0 v0 al ra iter st i).optimalSamples.getD j [] = st.optimalSamples.getD j [] ∧
    (updateOne m prop s0 e0 v0 al ra iter st i).optimalInds.getD j [] = st.optimalInds.getD j [] ∧
    (updateOne m prop s0 e0 v0 al ra iter st i).newOptima.getD j [] = st.newOptima.getD j [] ∧
    (updateOne m prop s0 e0 v0 al ra iter st i).newOptimaEn.getD j [] = st.newOptimaEn.getD j [] := by
  simp only [updateOne]
  split_ifs <;>
    refine ⟨?_, ?_, ?_, ?_, ?_, ?_, ?_, ?_, ?_, ?_⟩ <;>
    first
      | rfl
      | exact getD_set_ne _ _ _ _ _ h
      | exact (saveOptima_frame _ _ _ _ _ _ _ _ j h).1
      | exact (saveOptima_frame _ _ _ _ _ _ _ _ j h).2.1
      | exact (saveOptima_frame _ _ _ _ _ _ _ _ j h).2.2.1
      | exact (saveOptima_frame _ _ _ _ _ _ _ _ j h).2.2.2.1
      | exact (saveOptima_frame _ _ _ _ _ _ _ _ j h).2.2.2.2.1
      | exact (saveOptima_frame _ _ _ _ _ _ _ _ j h).2.2.2.2.2.1
      | exact (saveOptima_frame _ _ _ _ _ _ _ _ j h).2.2.2.2.2.2.1
      | exact (saveOptima_frame _ _ _ _ _ _ _ _ j h).2.2.2.2.2.2.2
      | (rw [saveOptima_config]; exact getD_set_ne _ _ _ _ _ h)
      | (rw [saveOptima_recInds]; exact getD_set_ne _ _ _ _ _ h)

/-- updateOne preserves the config and recInds lengths. -/
theorem updateOne_lengths (m : ℝ) (prop : List (List ℕ))
    (s0 e0 v0 al ra : List ℝ) (iter : ℕ) (st : SamplerState) (i : ℕ) :
    (updateOne m prop s0 e0 v0 al ra iter st i).config.length = st.config.length ∧
    (updateOne m prop s0 e0 v0 al ra iter st i).recInds.length = st.recInds.length := by
  simp only [updateOne]
  split_ifs <;> constructor <;>
    first
      | rfl
      | rw [List.length_set]
      | rw [saveOptima_config, List.length_set]
      | rw [saveOptima_recInds, List.length_set]

/-- updateOne only appends to the global dedup pool. -/
theorem updateOne_pool_grows (m : ℝ) (prop : List (List ℕ))
    (s0 e0 v0 al ra : List ℝ) (iter : ℕ) (st : SamplerState) (i : ℕ) :
    ∃ t, (updateOne m prop s0 e0 v0 al ra iter st i).allOptimalConfigs =
      st.allOptimalConfigs ++ t := by
  simp only [updateOne]
  split_ifs
  · exact saveOptima_pool_grows _ _ _ _ _ _ _ _
  · exact ⟨[], by simp⟩
  · exact ⟨[], by simp⟩

/-- On acceptance updateOne copies the proposal into the current config
of trajectory i. -/
theorem updateOne_accept_config (m : ℝ) (prop : List (List ℕ))
    (s0 e0 v0 al ra : List ℝ) (iter : ℕ) (st : SamplerState) (i : ℕ)
    (h : al.getD i 0 < ra.getD i 0) (hlen : i < st.config.length) :
    (updateOne m prop s0 e0 v0 al ra iter st i).config.getD i [] = prop.getD i [] := by
  simp only [updateOne]
  rw [if_pos h]
  split_ifs
  · rw [saveOptima_config]
    exact getD_set_self _ _ _ _ hlen
  · exact getD_set_self _ _ _ _ hlen

/-- On acceptance updateOne appends the iteration to trajectory i's
acceptance record. -/
theorem updateOne_accept_recInds (m : ℝ) (prop : List (List ℕ))
    (s0 e0 v0 al ra : List ℝ) (iter : ℕ) (st : SamplerState) (i : ℕ)
    (h : al.getD i 0 < ra.getD i 0) (hlen : i < st.recInds.length) :
    (updateOne m prop s0 e0 v0 al ra iter st i).recInds.getD i [] =
      st.recInds.getD i [] ++ [iter] := by
  simp only [updateOne]
  rw [if_pos h]
  split_ifs
  · rw [saveOptima_recInds]
    exact getD_set_self _ _ _ _ hlen
  · exact getD_set_self _ _ _ _ hlen

/-- updateAnnealingOne does not touch the per-trajectory records used by
its own conditions, nor temp0 or nruns. -/
theorem updAnnOne_untouched (ds : DatasetConfig) (tr : ℝ) (iter : ℕ)
    (Us : List ℝ) (fl : List ℕ) (fs : ℕ → ℕ → ℕ) (st : SamplerState) (i : ℕ) :
    (updateAnnealingOne ds tr iter Us fl fs st i).recInds = st.recInds ∧
    (updateAnnealingOne ds tr iter Us fl fs st i).optimalInds = st.optimalInds ∧
    (updateAnnealingOne ds tr iter Us fl fs st i).temp0 = st.temp0 ∧
    (updateAnnealingOne ds tr iter Us fl fs st i).nruns = st.nruns := by
  simp only [updateAnnealingOne]
  split_ifs <;> exact ⟨rfl, rfl, rfl, rfl⟩

/-- updateAnnealingOne for trajectory i leaves every other trajectory's
acceptance rate, temperature, reset record and config unchanged. -/
theorem updAnnOne_frame (ds : DatasetConfig) (tr : ℝ) (iter : ℕ)
    (Us : List ℝ) (fl : List ℕ) (fs : ℕ → ℕ → ℕ) (st : SamplerState) (i j : ℕ)
    (h : j ≠ i) :
    (updateAnnealingOne ds tr iter Us fl fs st i).acceptanceRate.getD j 0 = st.acceptanceRate.getD j 0 ∧
    (updateAnnealingOne ds tr iter Us fl fs st i).temperature.getD j 0 = st.temperature.getD j 0 ∧
    (updateAnnealingOne ds tr iter Us fl fs st i).resetInd.getD j 0 = st.resetInd.getD j 0 ∧
    (updateAnnealingOne ds tr iter Us fl fs st i).config.getD j [] = st.config.getD j [] := by
  simp only [updateAnnealingOne]
  split_ifs <;> dsimp only <;>
    refine ⟨?_, ?_, ?_, ?_⟩ <;>
    first
      | rfl
      | exact getD_set_ne _ _ _ _ _ h
      | (rw [getD_set_ne _ _ _ _ _ h]; exact getD_set_ne _ _ _ _ _ h)

/-- updateAnnealingOne preserves the lengths of the lists it writes. -/
theorem updAnnOne_lengths (ds : DatasetConfig) (tr : ℝ) (iter : ℕ)
    (Us : List ℝ) (fl : List ℕ) (fs : ℕ → ℕ → ℕ) (st : SamplerState) (i : ℕ) :
    (updateAnnealingOne ds tr iter Us fl fs st i).acceptanceRate.length = st.acceptanceRate.length ∧
    (updateAnnealingOne ds tr iter Us fl fs st i).temperature.length = st.temperature.length ∧
    (updateAnnealingOne ds tr iter Us fl fs st i).resetInd.length = st.resetInd.length ∧
    (updateAnnealingOne ds tr iter Us fl fs st i).config.length = st.config.length := by
  simp only [updateAnnealingOne]
  split_ifs <;> dsimp only <;>
    refine ⟨?_, ?_, ?_, ?_⟩ <;>
    first
      | rfl
      | rw [List.length_set, List.length_set]
      | rw [List.length_set]

/-- updateAnnealingOne writes the rolling acceptance rate of trajectory
i computed over the last 100 recorded acceptances. -/
theorem updAnnOne_rate (ds : DatasetConfig) (tr : ℝ) (iter : ℕ)
    (Us : List ℝ) (fl : List ℕ) (fs : ℕ → ℕ → ℕ) (st : SamplerState) (i : ℕ)
    (hla : i < st.acceptanceRate.length) :
    (updateAnnealingOne ds tr iter Us fl fs st i).acceptanceRate.getD i 0 =
      (((lastN 100 (st.recInds.getD i [])).countP
        (fun r : ℕ => decide ((iter : ℤ) - (r : ℤ) < 100)) : ℕ) : ℝ) / 100 := by
  simp only [updateAnnealingOne]
  split_ifs <;> dsimp only <;> exact getD_set_self _ _ _ _ hla

/-- When the stagnation condition fails, updateAnnealingOne only
modulates trajectory i's temperature by the drawn factor. -/
theorem updAnnOne_temp_noreset (ds : DatasetConfig) (tr : ℝ) (iter : ℕ)
    (Us : List ℝ) (fl : List ℕ) (fs : ℕ → ℕ → ℕ) (st : SamplerState) (i : ℕ)
    (hla : i < st.acceptanceRate.length) (hlt : i < st.temperature.length)
    (hnr : ¬ (1000 < (iter : ℤ) - (st.resetInd.getD i 0 : ℤ) ∧
      1000 < (iter : ℤ) - (((st.optimalInds.getD i []).getLastD 0 : ℤ)))) :
    (updateAnnealingOne ds tr iter Us fl fs st i).temperature.getD i 0 =
      (if (((lastN 100 (st.recInds.getD i [])).countP
          (fun r : ℕ => decide ((iter : ℤ) - (r : ℤ) < 100)) : ℕ) : ℝ) / 100 < tr
        then st.temperature.getD i 0 * (1 + Us.getD i 0)
        else st.temperature.getD i 0 * (1 - Us.getD i 0)) := by
  simp only [updateAnnealingOne]
  rw [getD_set_self _ _ _ _ hla]
  split_ifs <;> dsimp only <;>
    first
      | exact (hnr (by assumption)).elim
      | exact getD_set_self _ _ _ _ hlt

/-- updateAnnealingOne keeps the temperature of trajectory i strictly
positive, for an admissible uniform draw. -/
theorem updAnnOne_temp_pos (ds : DatasetConfig) (tr : ℝ) (iter : ℕ)
    (Us : List ℝ) (fl : List ℕ) (fs : ℕ → ℕ → ℕ) (st : SamplerState) (i : ℕ)
    (hlt : i < st.temperature.length)
    (htemp : 0 < st.temperature.getD i 0) (htemp0 : 0 < st.temp0)
    (hU0 : 0 ≤ Us.getD i 0) (hU1 : Us.getD i 0 < 1) :
    0 < (updateAnnealingOne ds tr iter Us fl fs st i).temperature.getD i 0 := by
  simp only [updateAnnealingOne]
  split_ifs <;> dsimp only
  · rw [getD_set_self _ _ _ _ (by rw [List.length_set]; exact hlt)]
    exact htemp0
  · rw [getD_set_self _ _ _ _ hlt]
    have : 0 < 1 + Us.getD i 0 := by linarith
    positivity
  · rw [getD_set_self _ _ _ _ (by rw [List.length_set]; exact hlt)]
    exact htemp0
  · rw [getD_set_self _ _ _ _ hlt]
    have : 0 < 1 - Us.getD i 0 := by linarith
    positivity

/-- When the stagnation condition holds, updateAnnealingOne resets
trajectory i: reset iteration recorded, config re-randomized, and the
temperature boosted back to temp0. -/
theorem updAnnOne_reset (ds : DatasetConfig) (tr : ℝ) (iter : ℕ)
    (Us : List ℝ) (fl : List ℕ) (fs : ℕ → ℕ → ℕ) (st : SamplerState) (i : ℕ)
    (hlt : i < st.temperature.length) (hlr : i < st.resetInd.length)
    (hlc : i < st.config.length)
    (hr : 1000 < (iter : ℤ) - (st.resetInd.getD i 0 : ℤ) ∧
      1000 < (iter : ℤ) - (((st.optimalInds.getD i []).getLastD 0 : ℤ))) :
    (updateAnnealingOne ds tr iter Us fl fs st i).resetInd.getD i 0 = iter ∧
    (updateAnnealingOne ds tr iter Us fl fs st i).config.getD i [] =
      makeAConfig ds (fl.getD i 0) (fs i) ∧
    (updateAnnealingOne ds tr iter Us fl fs st i).temperature.getD i 0 = st.temp0 := by
  simp only [updateAnnealingOne]
  split_ifs <;> dsimp only <;>
    first
      | exact absurd hr (by assumption)
      | exact ⟨getD_set_self _ _ _ _ hlr, getD_set_self _ _ _ _ hlc,
          getD_set_self _ _ _ _ (by rw [List.length_set]; exact hlt)⟩

/-- When the stagnation condition fails, updateAnnealingOne leaves
trajectory i's reset record and config unchanged. -/
theorem updAnnOne_noreset (ds : DatasetConfig) (tr : ℝ) (iter : ℕ)
    (Us : List ℝ) (fl : List ℕ) (fs : ℕ → ℕ → ℕ) (st : SamplerState) (i : ℕ)
    (hnr : ¬ (1000 < (iter : ℤ) - (st.resetInd.getD i 0 : ℤ) ∧
      1000 < (iter : ℤ) - (((st.optimalInds.getD i []).getLastD 0 : ℤ)))) :
    (updateAnnealingOne ds tr iter Us fl fs st i).resetInd.getD i 0 = st.resetInd.getD i 0 ∧
    (updateAnnealingOne ds tr iter Us fl fs st i).config.getD i [] = st.config.getD i [] := by
  simp only [updateAnnealingOne]
  split_ifs <;> dsimp only <;>
    first
      | exact (hnr (by assumption)).elim
      | exact ⟨rfl, rfl⟩

/-- updateConfigs leaves temperature, temp0, nruns, resetInd,
acceptanceRate, STUN and E0init unchanged. -/
theorem updateConfigs_untouched (m : ℝ) (prop : List (List ℕ))
    (s0 e0 v0 al ra : List ℝ) (iter : ℕ) (st : SamplerState) :
    (updateConfigs m prop s0 e0 v0 al ra iter st).temperature = st.temperature ∧
    (updateConfigs m prop s0 e0 v0 al ra iter st).temp0 = st.temp0 ∧
    (updateConfigs m prop s0 e0 v0 al ra iter st).nruns = st.nruns ∧
    (updateConfigs m prop s0 e0 v0 al ra iter st).resetInd = st.resetInd ∧
    (updateConfigs m prop s0 e0 v0 al ra iter st).acceptanceRate = st.acceptanceRate ∧
    (updateConfigs m prop s0 e0 v0 al ra iter st).STUN = st.STUN ∧
    (updateConfigs m prop s0 e0 v0 al ra iter st).E0init = st.E0init :=
  ⟨foldl_invar _ (fun s => s.temperature) _
      (fun j _ s => (updateOne_untouched m prop s0 e0 v0 al ra iter s j).1) st,
   foldl_invar _ (fun s => s.temp0) _
      (fun j _ s => (updateOne_untouched m prop s0 e0 v0 al ra iter s j).2.1) st,
   foldl_invar _ (fun s => s.nruns) _
      (fun j _ s => (updateOne_untouched m prop s0 e0 v0 al ra iter s j).2.2.1) st,
   foldl_invar _ (fun s => s.resetInd) _
      (fun j _ s => (updateOne_untouched m prop s0 e0 v0 al ra iter s j).2.2.2.1) st,
   foldl_invar _ (fun s => s.acceptanceRate) _
      (fun j _ s => (updateOne_untouched m prop s0 e0 v0 al ra iter s j).2.2.2.2.1) st,
   foldl_invar _ (fun s => s.STUN) _
      (fun j _ s => (updateOne_untouched m prop s0 e0 v0 al ra iter s j).2.2.2.2.2.1) st,
   foldl_invar _ (fun s => s.E0init) _
      (fun j _ s => (updateOne_untouched m prop s0 e0 v0 al ra iter s j).2.2.2.2.2.2) st⟩

/-- On acceptance of trajectory i, updateConfigs copies the full
proposed sequence into the current config of trajectory i and appends
the iteration to its acceptance record. -/
theorem updateConfigs_accept (m : ℝ) (prop : List (List ℕ))
    (s0 e0 v0 al ra : List ℝ) (iter : ℕ) (st : SamplerState) (i : ℕ)
    (hi : i < st.nruns) (hlc : st.config.length = st.nruns)
    (hlr : st.recInds.length = st.nruns)
    (hacc : al.getD i 0 < ra.getD i 0) :
    (updateConfigs m prop s0 e0 v0 al ra iter st).config.getD i [] = prop.getD i [] ∧
    (updateConfigs m prop s0 e0 v0 al ra iter st).recInds.getD i [] =
      st.recInds.getD i [] ++ [iter] := by
  have hclen : ((List.range i).foldl
      (updateOne m prop s0 e0 v0 al ra iter) st).config.length = st.config.length :=
    foldl_invar _ (fun s => s.config.length) _
      (fun j _ s => (updateOne_lengths m prop s0 e0 v0 al ra iter s j).1) st
  have hrlen : ((List.range i).foldl
      (updateOne m prop s0 e0 v0 al ra iter) st).recInds.length = st.recInds.length :=
    foldl_invar _ (fun s => s.recInds.length) _
      (fun j _ s => (updateOne_lengths m prop s0 e0 v0 al ra iter s j).2) st
  constructor
  · rw [show updateConfigs m prop s0 e0 v0 al ra iter st =
        (List.range st.nruns).foldl (updateOne m prop s0 e0 v0 al ra iter) st from rfl,
      foldl_range_at _ (fun s => s.config.getD i []) st.nruns i hi
        (fun j hj s => (updateOne_frame m prop s0 e0 v0 al ra iter s j i (Ne.symm hj)).1) st]
    exact updateOne_accept_config m prop s0 e0 v0 al ra iter _ i hacc (by omega)
  · rw [show updateConfigs m prop s0 e0 v0 al ra iter st =
        (List.range st.nruns).foldl (updateOne m prop s0 e0 v0 al ra iter) st from rfl,
      foldl_range_at _ (fun s => s.recInds.getD i []) st.nruns i hi
        (fun j hj s => (updateOne_frame m prop s0 e0 v0 al ra iter s j i (Ne.symm hj)).2.1) st,
      updateOne_accept_recInds m prop s0 e0 v0 al ra iter _ i hacc (by omega),
      foldl_range_lt _ (fun s => s.recInds.getD i []) i
        (fun j hj s => (updateOne_frame m prop s0 e0 v0 al ra iter s j i (Ne.symm hj)).2.1) st]

/-- A g-observation of updateConfigs is unchanged when trajectory i is
rejected and all other trajectories are g-invariant. -/
theorem updateConfigs_reject_invar {α : Type _} (m : ℝ) (prop : List (List ℕ))
    (s0 e0 v0 al ra : List ℝ) (iter : ℕ) (i : ℕ)
    (hrej : ¬ al.getD i 0 < ra.getD i 0)
    (g : SamplerState → α)
    (hg : ∀ j s, j ≠ i → g (updateOne m prop s0 e0 v0 al ra iter s j) = g s)
    (st : SamplerState) :
    g (updateConfigs m prop s0 e0 v0 al ra iter st) = g st :=
  foldl_invar _ g _ (fun j _ s => by
    by_cases hji : j = i
    · subst hji
      rw [updateOne_reject m prop s0 e0 v0 al ra iter s j hrej]
    · exact hg j s hji) st

/-- On rejection of trajectory i, updateConfigs leaves every
per-trajectory field of trajectory i unchanged and only appends to the
global dedup pool. -/
theorem updateConfigs_reject (m : ℝ) (prop : List (List ℕ))
    (s0 e0 v0 al ra : List ℝ) (iter : ℕ) (st : SamplerState) (i : ℕ)
    (hrej : ¬ al.getD i 0 < ra.getD i 0) :
    (updateConfigs m prop s0 e0 v0 al ra iter st).config.getD i [] = st.config.getD i [] ∧
    (updateConfigs m prop s0 e0 v0 al ra iter st).recInds.getD i [] = st.recInds.getD i [] ∧
    (updateConfigs m prop s0 e0 v0 al ra iter st).E0.getD i 0 = st.E0.getD i 0 ∧
    (updateConfigs m prop s0 e0 v0 al ra iter st).optima.getD i [] = st.optima.getD i [] ∧
    (updateConfigs m prop s0 e0 v0 al ra iter st).enAtOptima.getD i [] = st.enAtOptima.getD i [] ∧
    (updateConfigs m prop s0 e0 v0 al ra iter st).varAtOptima.getD i [] = st.varAtOptima.getD i [] ∧
    (updateConfigs m prop s0 e0 v0 al ra iter st).optimalSamples.getD i [] = st.optimalSamples.getD i [] ∧
    (updateConfigs m prop s0 e0 v0 al ra iter st).optimalInds.getD i [] = st.optimalInds.getD i [] ∧
    (updateConfigs m prop s0 e0 v0 al ra iter st).newOptima.getD i [] = st.newOptima.getD i [] ∧
    (updateConfigs m prop s0 e0 v0 al ra iter st).newOptimaEn.getD i [] = st.newOptimaEn.getD i [] ∧
    ∃ t, (updateConfigs m prop s0 e0 v0 al ra iter st).allOptimalConfigs =
      st.allOptimalConfigs ++ t :=
  ⟨updateConfigs_reject_invar m prop s0 e0 v0 al ra iter i hrej (fun s => s.config.getD i [])
      (fun j s hji => (updateOne_frame m prop s0 e0 v0 al ra iter s j i (Ne.symm hji)).1) st,
   updateConfigs_reject_invar m prop s0 e0 v0 al ra iter i hrej (fun s => s.recInds.getD i [])
      (fun j s hji => (updateOne_frame m prop s0 e0 v0 al ra iter s j i (Ne.symm hji)).2.1) st,
   updateConfigs_reject_invar m prop s0 e0 v0 al ra iter i hrej (fun s => s.E0.getD i 0)
      (fun j s hji => (updateOne_frame m prop s0 e0 v0 al ra iter s j i (Ne.symm hji)).2.2.1) st,
   updateConfigs_reject_invar m prop s0 e0 v0 al ra iter i hrej (fun s => s.optima.getD i [])
      (fun j s hji => (updateOne_frame m prop s0 e0 v0 al ra iter s j i (Ne.symm hji)).2.2.2.1) st,
   updateConfigs_reject_invar m prop s0 e0 v0 al ra iter i hrej (fun s => s.enAtOptima.getD i [])
      (fun j s hji => (updateOne_frame m prop s0 e0 v0 al ra iter s j i (Ne.symm hji)).2.2.2.2.1) st,
   updateConfigs_reject_invar m prop s0 e0 v0 al ra iter i hrej (fun s => s.varAtOptima.getD i [])
      (fun j s hji => (updateOne_frame m prop s0 e0 v0 al ra iter s j i (Ne.symm hji)).2.2.2.2.2.1) st,
   updateConfigs_reject_invar m prop s0 e0 v0 al ra iter i hrej (fun s => s.optimalSamples.getD i [])
      (fun j s hji => (updateOne_frame m prop s0 e0 v0 al ra iter s j i (Ne.symm hji)).2.2.2.2.2.2.1) st,
   updateConfigs_reject_invar m prop s0 e0 v0 al ra iter i hrej (fun s => s.optimalInds.getD i [])
      (fun j s hji => (updateOne_frame m prop s0 e0 v0 al ra iter s j i (Ne.symm hji)).2.2.2.2.2.2.2.1) st,
   updateConfigs_reject_invar m prop s0 e0 v0 al ra iter i hrej (fun s => s.newOptima.getD i [])
      (fun j s hji => (updateOne_frame m prop s0 e0 v0 al ra iter s j i (Ne.symm hji)).2.2.2.2.2.2.2.2.1) st,
   updateConfigs_reject_invar m prop s0 e0 v0 al ra iter i hrej (fun s => s.newOptimaEn.getD i [])
      (fun j s hji => (updateOne_frame m prop s0 e0 v0 al ra iter s j i (Ne.symm hji)).2.2.2.2.2.2.2.2.2) st,
   foldl_grows _ (fun s => s.allOptimalConfigs)
      (fun j s => updateOne_pool_grows m prop s0 e0 v0 al ra iter s j) _ st⟩

/-- The prefix fold of the annealing controller leaves the inputs of
trajectory i's step unchanged. -/
theorem updateAnnealing_before_i (ds : DatasetConfig) (tr : ℝ) (iter : ℕ)
    (Us : List ℝ) (fl : List ℕ) (fs : ℕ → ℕ → ℕ) (st : SamplerState) (i : ℕ) :
    ((List.range i).foldl (updateAnnealingOne ds tr iter Us fl fs) st).recInds = st.recInds ∧
    ((List.range i).foldl (updateAnnealingOne ds tr iter Us fl fs) st).optimalInds = st.optimalInds ∧
    ((List.range i).foldl (updateAnnealingOne ds tr iter Us fl fs) st).temp0 = st.temp0 ∧
    ((List.range i).foldl (updateAnnealingOne ds tr iter Us fl fs) st).resetInd.getD i 0 = st.resetInd.getD i 0 ∧
    ((List.range i).foldl (updateAnnealingOne ds tr iter Us fl fs) st).temperature.getD i 0 = st.temperature.getD i 0 ∧
    ((List.range i).foldl (updateAnnealingOne ds tr iter Us fl fs) st).config.getD i [] = st.config.getD i [] ∧
    ((List.range i).foldl (updateAnnealingOne ds tr iter Us fl fs) st).acceptanceRate.length = st.acceptanceRate.length ∧
    ((List.range i).foldl (updateAnnealingOne ds tr iter Us fl fs) st).temperature.length = st.temperature.length ∧
    ((List.range i).foldl (updateAnnealingOne ds tr iter Us fl fs) st).resetInd.length = st.resetInd.length ∧
    ((List.range i).foldl (updateAnnealingOne ds tr iter Us fl fs) st).config.length = st.config.length :=
  ⟨foldl_invar _ (fun s => s.recInds) _
      (fun j _ s => (updAnnOne_untouched ds tr iter Us fl fs s j).1) st,
   foldl_invar _ (fun s => s.optimalInds) _
      (fun j _ s => (updAnnOne_untouched ds tr iter Us fl fs s j).2.1) st,
   foldl_invar _ (fun s => s.temp0) _
      (fun j _ s => (updAnnOne_untouched ds tr iter Us fl fs s j).2.2.1) st,
   foldl_range_lt _ (fun s => s.resetInd.getD i 0) i
      (fun j hj s => (updAnnOne_frame ds tr iter Us fl fs s j i (Ne.symm hj)).2.2.1) st,
   foldl_range_lt _ (fun s => s.temperature.getD i 0) i
      (fun j hj s => (updAnnOne_frame ds tr iter Us fl fs s j i (Ne.symm hj)).2.1) st,
   foldl_range_lt _ (fun s => s.config.getD i []) i
      (fun j hj s => (updAnnOne_frame ds tr iter Us fl fs s j i (Ne.symm hj)).2.2.2) st,
   foldl_invar _ (fun s => s.acceptanceRate.length) _
      (fun j _ s => (updAnnOne_lengths ds tr iter Us fl fs s j).1) st,
   foldl_invar _ (fun s => s.temperature.length) _
      (fun j _ s => (updAnnOne_lengths ds tr iter Us fl fs s j).2.1) st,
   foldl_invar _ (fun s => s.resetInd.length) _
      (fun j _ s => (updAnnOne_lengths ds tr iter Us fl fs s j).2.2.1) st,
   foldl_invar _ (fun s => s.config.length) _
      (fun j _ s => (updAnnOne_lengths ds tr iter Us fl fs s j).2.2.2) st⟩

/-- The annealing controller writes trajectory i's rolling acceptance
rate from its acceptance record. -/
theorem updateAnnealing_rate_at (ds : DatasetConfig) (tr : ℝ) (iter : ℕ)
    (Us : List ℝ) (fl : List ℕ) (fs : ℕ → ℕ → ℕ) (st : SamplerState) (i : ℕ)
    (hi : i < st.nruns) (hla : st.acceptanceRate.length = st.nruns) :
    (updateAnnealing ds tr iter Us fl fs st).acceptanceRate.getD i 0 =
      (((lastN 100 (st.recInds.getD i [])).countP
        (fun r : ℕ => decide ((iter : ℤ) - (r : ℤ) < 100)) : ℕ) : ℝ) / 100 := by
  rw [show updateAnnealing ds tr iter Us fl fs st =
      (List.range st.nruns).foldl (updateAnnealingOne ds tr iter Us fl fs) st from rfl,
    foldl_range_at _ (fun s => s.acceptanceRate.getD i 0) st.nruns i hi
      (fun j hj s => (updAnnOne_frame ds tr iter Us fl fs s j i (Ne.symm hj)).1) st,
    updAnnOne_rate ds tr iter Us fl fs _ i
      (by rw [(updateAnnealing_before_i ds tr iter Us fl fs st i).2.2.2.2.2.2.1]; omega),
    (updateAnnealing_before_i ds tr iter Us fl fs st i).1]

/-- When the stagnation condition of trajectory i fails, the annealing
controller multiplies its temperature by the drawn factor selected by
the rolling acceptance rate. -/
theorem updateAnnealing_temp_at (ds : DatasetConfig) (tr : ℝ) (iter : ℕ)
    (Us : List ℝ) (fl : List ℕ) (fs : ℕ → ℕ → ℕ) (st : SamplerState) (i : ℕ)
    (hi : i < st.nruns) (hla : st.acceptanceRate.length = st.nruns)
    (hlt : st.temperature.length = st.nruns)
    (hnr : ¬ (1000 < (iter : ℤ) - (st.resetInd.getD i 0 : ℤ) ∧
      1000 < (iter : ℤ) - (((st.optimalInds.getD i []).getLastD 0 : ℤ)))) :
    (updateAnnealing ds tr iter Us fl fs st).temperature.getD i 0 =
      (if (((lastN 100 (st.recInds.getD i [])).countP
          (fun r : ℕ => decide ((iter : ℤ) - (r : ℤ) < 100)) : ℕ) : ℝ) / 100 < tr
        then st.temperature.getD i 0 * (1 + Us.getD i 0)
        else st.temperature.getD i 0 * (1 - Us.getD i 0)) := by
  obtain ⟨h1, h2, h3, h4, h5, h6, h7, h8, h9, h10⟩ :=
    updateAnnealing_before_i ds tr iter Us fl fs st i
  rw [show updateAnnealing ds tr iter Us fl fs st =
      (List.range st.nruns).foldl (updateAnnealingOne ds tr iter Us fl fs) st from rfl,
    foldl_range_at _ (fun s => s.temperature.getD i 0) st.nruns i hi
      (fun j hj s => (updAnnOne_frame ds tr iter Us fl fs s j i (Ne.symm hj)).2.1) st,
    updAnnOne_temp_noreset ds tr iter Us fl fs _ i (by omega) (by omega)
      (by rw [h4, h2]; exact hnr),
    h1, h5]

/-- The annealing controller keeps trajectory i's temperature strictly
positive. -/
theorem updateAnnealing_temp_pos_at (ds : DatasetConfig) (tr : ℝ) (iter : ℕ)
    (Us : List ℝ) (fl : List ℕ) (fs : ℕ → ℕ → ℕ) (st : SamplerState) (i : ℕ)
    (hi : i < st.nruns) (hla : st.acceptanceRate.length = st.nruns)
    (hlt : st.temperature.length = st.nruns)
    (htemp : 0 < st.temperature.getD i 0) (htemp0 : 0 < st.temp0)
    (hU0 : 0 ≤ Us.getD i 0) (hU1 : Us.getD i 0 < 1) :
    0 < (updateAnnealing ds tr iter Us fl fs st).temperature.getD i 0 := by
  obtain ⟨h1, h2, h3, h4, h5, h6, h7, h8, h9, h10⟩ :=
    updateAnnealing_before_i ds tr iter Us fl fs st i
  rw [show updateAnnealing ds tr iter Us fl fs st =
      (List.range st.nruns).foldl (updateAnnealingOne ds tr iter Us fl fs) st from rfl,
    foldl_range_at _ (fun s => s.temperature.getD i 0) st.nruns i hi
      (fun j hj s => (updAnnOne_frame ds tr iter Us fl fs s j i (Ne.symm hj)).2.1) st]
  exact updAnnOne_temp_pos ds tr iter Us fl fs _ i (by omega)
    (by rw [h5]; exact htemp) (by rw [h3]; exact htemp0) hU0 hU1

/-- When the stagnation condition of trajectory i holds, the annealing
controller resets it: records the iteration, re-randomizes the config
and boosts the temperature back to temp0. -/
theorem updateAnnealing_reset_at (ds : DatasetConfig) (tr : ℝ) (iter : ℕ)
    (Us : List ℝ) (fl : List ℕ) (fs : ℕ → ℕ → ℕ) (st : SamplerState) (i : ℕ)
    (hi : i < st.nruns) (hlt : st.temperature.length = st.nruns)
    (hlr : st.resetInd.length = st.nruns) (hlc : st.config.length = st.nruns)
    (hr : 1000 < (iter : ℤ) - (st.resetInd.getD i 0 : ℤ) ∧
      1000 < (iter : ℤ) - (((st.optimalInds.getD i []).getLastD 0 : ℤ))) :
    (updateAnnealing ds tr iter Us fl fs st).resetInd.getD i 0 = iter ∧
    (updateAnnealing ds tr iter Us fl fs st).config.getD i [] =
      makeAConfig ds (fl.getD i 0) (fs i) ∧
    (updateAnnealing ds tr iter Us fl fs st).temperature.getD i 0 = st.temp0 := by
  obtain ⟨h1, h2, h3, h4, h5, h6, h7, h8, h9, h10⟩ :=
    updateAnnealing_before_i ds tr iter Us fl fs st i
  have hstep := updAnnOne_reset ds tr iter Us fl fs
    ((List.range i).foldl (updateAnnealingOne ds tr iter Us fl fs) st) i
    (by omega) (by omega) (by omega) (by rw [h4, h2]; exact hr)
  refine ⟨?_, ?_, ?_⟩
  · rw [show updateAnnealing ds tr iter Us fl fs st =
      (List.range st.nruns).foldl (updateAnnealingOne ds tr iter Us fl fs) st from rfl,
      foldl_range_at _ (fun s => s.resetInd.getD i 0) st.nruns i hi
        (fun j hj s => (updAnnOne_frame ds tr iter Us fl fs s j i (Ne.symm hj)).2.2.1) st]
    exact hstep.1
  · rw [show updateAnnealing ds tr iter Us fl fs st =
      (List.range st.nruns).foldl (updateAnnealingOne ds tr iter Us fl fs) st from rfl,
      foldl_range_at _ (fun s => s.config.getD i []) st.nruns i hi
        (fun j hj s => (updAnnOne_frame ds tr iter Us fl fs s j i (Ne.symm hj)).2.2.2) st]
    exact hstep.2.1
  · rw [show updateAnnealing ds tr iter Us fl fs st =
      (List.range st.nruns).foldl (updateAnnealingOne ds tr iter Us fl fs) st from rfl,
      foldl_range_at _ (fun s => s.temperature.getD i 0) st.nruns i hi
        (fun j hj s => (updAnnOne_frame ds tr iter Us fl fs s j i (Ne.symm hj)).2.1) st,
      hstep.2.2, h3]

/-- When the stagnation condition of trajectory i fails, the annealing
controller leaves its reset record and config unchanged. -/
theorem updateAnnealing_noreset_at (ds : DatasetConfig) (tr : ℝ) (iter : ℕ)
    (Us : List ℝ) (fl : List ℕ) (fs : ℕ → ℕ → ℕ) (st : SamplerState) (i : ℕ)
    (hi : i < st.nruns)
    (hnr : ¬ (1000 < (iter : ℤ) - (st.resetInd.getD i 0 : ℤ) ∧
      1000 < (iter : ℤ) - (((st.optimalInds.getD i []).getLastD 0 : ℤ)))) :
    (updateAnnealing ds tr iter Us fl fs st).resetInd.getD i 0 = st.resetInd.getD i 0 ∧
    (updateAnnealing ds tr iter Us fl fs st).config.getD i [] = st.config.getD i [] := by
  obtain ⟨h1, h2, h3, h4, h5, h6, h7, h8, h9, h10⟩ :=
    updateAnnealing_before_i ds tr iter Us fl fs st i
  have hstep := updAnnOne_noreset ds tr iter Us fl fs
    ((List.range i).foldl (updateAnnealingOne ds tr iter Us fl fs) st) i
    (by rw [h4, h2]; exact hnr)
  constructor
  · rw [show updateAnnealing ds tr iter Us fl fs st =
      (List.range st.nruns).foldl (updateAnnealingOne ds tr iter Us fl fs) st from rfl,
      foldl_range_at _ (fun s => s.resetInd.getD i 0) st.nruns i hi
        (fun j hj s => (updAnnOne_frame ds tr iter Us fl fs s j i (Ne.symm hj)).2.2.1) st,
      hstep.1, h4]
  · rw [show updateAnnealing ds tr iter Us fl fs st =
      (List.range st.nruns).foldl (updateAnnealingOne ds tr iter Us fl fs) st from rfl,
      foldl_range_at _ (fun s => s.config.getD i []) st.nruns i hi
        (fun j hj s => (updAnnOne_frame ds tr iter Us fl fs s j i (Ne.symm hj)).2.2.2) st,
      hstep.2, h6]

/-- initOptima does not touch temperature, temp0, nruns or STUN. -/
theorem initOptima_untouched (t : ScoreTriple) (st : SamplerState) :
    (initOptima t st).temperature = st.temperature ∧
    (initOptima t st).temp0 = st.temp0 ∧
    (initOptima t st).nruns = st.nruns ∧
    (initOptima t st).STUN = st.STUN :=
  ⟨rfl, rfl, rfl, rfl⟩

/-- One sampler iteration never touches the temperatures, temp0, nruns
or the STUN flag. -/
theorem iterate_untouched (P : RunParams)
    (gs : List (List ℕ) → List (List ℕ) → ScoreTriple)
    (d : Draws) (k : ℕ) (st : SamplerState) :
    (iterate P gs d k st).temperature = st.temperature ∧
    (iterate P gs d k st).temp0 = st.temp0 ∧
    (iterate P gs d k st).nruns = st.nruns ∧
    (iterate P gs d k st).STUN = st.STUN := by
  simp only [iterate]
  refine ⟨?_, ?_, ?_, ?_⟩
  · rw [(updateConfigs_untouched _ _ _ _ _ _ _ _ _).1]
    split_ifs <;> rfl
  · rw [(updateConfigs_untouched _ _ _ _ _ _ _ _ _).2.1]
    split_ifs <;> rfl
  · rw [(updateConfigs_untouched _ _ _ _ _ _ _ _ _).2.2.1]
    split_ifs <;> rfl
  · rw [(updateConfigs_untouched _ _ _ _ _ _ _ _ _).2.2.2.2.2.1]
    split_ifs <;> rfl

/-- Temperatures along the post-sample annealing loop: starting from a
constant vector c, after k iterations every trajectory's temperature is
c * 0.99 ^ k. -/
theorem runSteps_psa_temperature (P : RunParams)
    (gs : List (List ℕ) → List (List ℕ) → ScoreTriple)
    (draws : ℕ → Draws) (k n : ℕ) (c : ℝ) (st : SamplerState)
    (h : st.temperature = List.replicate n c) :
    (runSteps (psaStep P gs draws) k st).temperature =
      List.replicate n (c * 0.99 ^ k) := by
  induction k with
  | zero => simpa using h
  | succ k ih =>
    show (psaStep P gs draws k (runSteps (psaStep P gs draws) k st)).temperature = _
    simp only [psaStep]
    rw [(iterate_untouched P gs (draws k) k _).1, ih, List.map_replicate]
    congr 1
    ring

/-- The STUN flag and temp0 are constant along the post-sample
annealing loop. -/
theorem runSteps_psa_flags (P : RunParams)
    (gs : List (List ℕ) → List (List ℕ) → ScoreTriple)
    (draws : ℕ → Draws) (k : ℕ) (st : SamplerState) :
    (runSteps (psaStep P gs draws) k st).STUN = st.STUN ∧
    (runSteps (psaStep P gs draws) k st).temp0 = st.temp0 := by
  induction k with
  | zero => exact ⟨rfl, rfl⟩
  | succ k ih =>
    refine ⟨?_, ?_⟩
    · show (psaStep P gs draws k (runSteps (psaStep P gs draws) k st)).STUN = st.STUN
      simp only [psaStep]
      rw [(iterate_untouched P gs (draws k) k _).2.2.2, ih.1]
    · show (psaStep P gs draws k (runSteps (psaStep P gs draws) k st)).temp0 = st.temp0
      simp only [psaStep]
      rw [(iterate_untouched P gs (draws k) k _).2.1, ih.2]

/-- C2: in STUN mode the energy difference of trajectory i is
f(score_of_proposed) - f(score_of_current) with
f(s) = 1 - exp(-gamma_i * (s - absMin)); with STUN disabled it is the
raw score difference. -/
theorem stun_energy_difference (gammas : List ℝ) (absMin : ℝ)
    (scores0 scores1 : List ℝ) (i : ℕ)
    (h1 : i < gammas.length) (h2 : i < scores0.length) (h3 : i < scores1.length) :
    (getDE true gammas absMin scores0 scores1).getD i 0 =
      (1 - Real.exp (-(gammas.getD i 0) * (scores0.getD i 0 - absMin))) -
      (1 - Real.exp (-(gammas.getD i 0) * (scores1.getD i 0 - absMin))) ∧
    (getDE false gammas absMin scores0 scores1).getD i 0 =
      scores0.getD i 0 - scores1.getD i 0 := by
  have hF0 : i < (computeSTUN gammas absMin scores0).length := by
    unfold computeSTUN
    rw [List.length_zipWith]
    exact lt_min h1 h2
  have hF1 : i < (computeSTUN gammas absMin scores1).length := by
    unfold computeSTUN
    rw [List.length_zipWith]
    exact lt_min h1 h3
  constructor
  · show (List.zipWith (fun a b => a - b) (computeSTUN gammas absMin scores0)
      (computeSTUN gammas absMin scores1)).getD i 0 = _
    rw [getD_zipWith _ _ _ i 0 0 0 hF0 hF1]
    show (computeSTUN gammas absMin scores0).getD i 0 -
      (computeSTUN gammas absMin scores1).getD i 0 = _
    unfold computeSTUN
    rw [getD_zipWith _ _ _ i 0 0 0 h1 h2, getD_zipWith _ _ _ i 0 0 0 h1 h3]
  · show (List.zipWith (fun a b => a - b) scores0 scores1).getD i 0 = _
    exact getD_zipWith _ _ _ i 0 0 0 h2 h3

/-- Witness for stun_energy_difference at concrete inputs. -/
theorem stun_energy_difference_w :
    (0 < ([2] : List ℝ).length ∧ 0 < ([5] : List ℝ).length ∧
        0 < ([4] : List ℝ).length) ∧
    ((getDE true [2] 3 [5] [4]).getD 0 0 =
      (1 - Real.exp (-(([2] : List ℝ).getD 0 0) * (([5] : List ℝ).getD 0 0 - 3))) -
      (1 - Real.exp (-(([2] : List ℝ).getD 0 0) * (([4] : List ℝ).getD 0 0 - 3))) ∧
    (getDE false [2] 3 [5] [4]).getD 0 0 =
      ([5] : List ℝ).getD 0 0 - ([4] : List ℝ).getD 0 0) :=
  ⟨⟨by norm_num, by norm_num, by norm_num⟩,
    stun_energy_difference [2] 3 [5] [4] 0 (by norm_num) (by norm_num) (by norm_num)⟩

/-- C1: the acceptance ratio of trajectory i is
min(1, exp(-DE_i / temperature_i)), hence in [0, 1] for a positive
temperature; the proposal is adopted exactly when the uniform draw is
strictly below the ratio, and on acceptance the current sequence becomes
the proposed sequence with no partial writes. -/
theorem metropolis_acceptance (m : ℝ) (prop : List (List ℕ))
    (s0 e0 v0 al DE : List ℝ) (iter : ℕ) (st : SamplerState) (i : ℕ)
    (hi : i < st.nruns) (hlc : st.config.length = st.nruns)
    (hlr : st.recInds.length = st.nruns) (hlt : st.temperature.length = st.nruns)
    (hlDE : DE.length = st.nruns)
    (htemp : 0 < st.temperature.getD i 0) :
    (acceptanceRatio DE st.temperature).getD i 0 =
      min 1 (Real.exp (-(DE.getD i 0) / st.temperature.getD i 0)) ∧
    0 ≤ (acceptanceRatio DE st.temperature).getD i 0 ∧
    (acceptanceRatio DE st.temperature).getD i 0 ≤ 1 ∧
    (al.getD i 0 < (acceptanceRatio DE st.temperature).getD i 0 →
      (updateConfigs m prop s0 e0 v0 al (acceptanceRatio DE st.temperature) iter st).config.getD i [] = prop.getD i [] ∧
      (updateConfigs m prop s0 e0 v0 al (acceptanceRatio DE st.temperature) iter st).recInds.getD i [] = st.recInds.getD i [] ++ [iter]) ∧
    (¬ al.getD i 0 < (acceptanceRatio DE st.temperature).getD i 0 →
      (updateConfigs m prop s0 e0 v0 al (acceptanceRatio DE st.temperature) iter st).config.getD i [] = st.config.getD i []) := by
  have hr : (acceptanceRatio DE st.temperature).getD i 0 =
      min 1 (Real.exp (-(DE.getD i 0) / st.temperature.getD i 0)) := by
    unfold acceptanceRatio
    exact getD_zipWith _ _ _ i 0 0 0 (by omega) (by omega)
  refine ⟨hr, ?_, ?_, ?_, ?_⟩
  · rw [hr]
    exact le_min (by norm_num) (Real.exp_nonneg _)
  · rw [hr]
    exact min_le_left _ _
  · intro hacc
    exact updateConfigs_accept m prop s0 e0 v0 al _ iter st i hi hlc hlr hacc
  · intro hrej
    exact (updateConfigs_reject m prop s0 e0 v0 al _ iter st i hrej).1

/-- Witness for metropolis_acceptance at a concrete state with DE = 0,
temperature 1 and uniform draw 0 (an accepted move). -/
theorem metropolis_acceptance_w :
    0 < st0.temperature.getD 0 0 ∧
    ((acceptanceRatio [0] st0.temperature).getD 0 0 =
      min 1 (Real.exp (-(([0] : List ℝ).getD 0 0) / st0.temperature.getD 0 0)) ∧
    0 ≤ (acceptanceRatio [0] st0.temperature).getD 0 0 ∧
    (acceptanceRatio [0] st0.temperature).getD 0 0 ≤ 1 ∧
    (([0] : List ℝ).getD 0 0 < (acceptanceRatio [0] st0.temperature).getD 0 0 →
      (updateConfigs 0.2 [[2, 2]] [5] [0] [0] [0] (acceptanceRatio [0] st0.temperature) 3 st0).config.getD 0 [] = [[2, 2]].getD 0 [] ∧
      (updateConfigs 0.2 [[2, 2]] [5] [0] [0] [0] (acceptanceRatio [0] st0.temperature) 3 st0).recInds.getD 0 [] = st0.recInds.getD 0 [] ++ [3]) ∧
    (¬ ([0] : List ℝ).getD 0 0 < (acceptanceRatio [0] st0.temperature).getD 0 0 →
      (updateConfigs 0.2 [[2, 2]] [5] [0] [0] [0] (acceptanceRatio [0] st0.temperature) 3 st0).config.getD 0 [] = st0.config.getD 0 [])) :=
  ⟨by norm_num [st0], metropolis_acceptance 0.2 [[2, 2]] [5] [0] [0] [0] [0] 3 st0 0
    (by decide) (by decide) (by decide) (by decide) (by decide)
    (by norm_num [st0])⟩

/-- C8: post-sample annealing disables STUN, starts every trajectory at
the fixed low temperature temp0 = 0.01, decays each temperature by the
factor 0.99 once per iteration with no adaptive control, and after T
iterations every trajectory's temperature is temp0 * 0.99 ^ T. -/
theorem post_sample_annealing_temp (P : RunParams)
    (gs : List (List ℕ) → List (List ℕ) → ScoreTriple)
    (draws : ℕ → Draws) (initConfigs : List (List ℕ)) (T : ℕ)
    (st : SamplerState) :
    (postSampleAnnealing P gs draws initConfigs T st).STUN = false ∧
    (postSampleAnnealing P gs draws initConfigs T st).temp0 = 0.01 ∧
    (postSampleAnnealing P gs draws initConfigs T st).temperature =
      List.replicate initConfigs.length ((0.01 : ℝ) * 0.99 ^ T) := by
  unfold postSampleAnnealing
  refine ⟨?_, ?_, ?_⟩
  · rw [(runSteps_psa_flags P gs draws T _).1]
  · rw [(runSteps_psa_flags P gs draws T _).2]
  · exact runSteps_psa_temperature P gs draws T initConfigs.length 0.01 _ rfl

/-- C10: a rejected trajectory is left entirely unchanged by the
accept/update step: its current sequence, acceptance record, best score
E0, recorded optima lists and new-best history keep their values, and
the global dedup pool is only ever extended, so every entry it
contributed is preserved. -/
theorem reject_frame (m : ℝ) (prop : List (List ℕ)) (s0 e0 v0 al ra : List ℝ)
    (iter : ℕ) (st : SamplerState) (i : ℕ)
    (hrej : ¬ al.getD i 0 < ra.getD i 0) :
    (updateConfigs m prop s0 e0 v0 al ra iter st).config.getD i [] = st.config.getD i [] ∧
    (updateConfigs m prop s0 e0 v0 al ra iter st).recInds.getD i [] = st.recInds.getD i [] ∧
    (updateConfigs m prop s0 e0 v0 al ra iter st).E0.getD i 0 = st.E0.getD i 0 ∧
    (updateConfigs m prop s0 e0 v0 al ra iter st).optima.getD i [] = st.optima.getD i [] ∧
    (updateConfigs m prop s0 e0 v0 al ra iter st).enAtOptima.getD i [] = st.enAtOptima.getD i [] ∧
    (updateConfigs m prop s0 e0 v0 al ra iter st).varAtOptima.getD i [] = st.varAtOptima.getD i [] ∧
    (updateConfigs m prop s0 e0 v0 al ra iter st).optimalSamples.getD i [] = st.optimalSamples.getD i [] ∧
    (updateConfigs m prop s0 e0 v0 al ra iter st).optimalInds.getD i [] = st.optimalInds.getD i [] ∧
    (updateConfigs m prop s0 e0 v0 al ra iter st).newOptima.getD i [] = st.newOptima.getD i [] ∧
    (updateConfigs m prop s0 e0 v0 al ra iter st).newOptimaEn.getD i [] = st.newOptimaEn.getD i [] ∧
    ∃ t, (updateConfigs m prop s0 e0 v0 al ra iter st).allOptimalConfigs =
      st.allOptimalConfigs ++ t :=
  updateConfigs_reject m prop s0 e0 v0 al ra iter st i hrej

/-- Witness for reject_frame: the uniform draw 1 is not below the
ratio 0, so trajectory 0 of the concrete state is left unchanged. -/
theorem reject_frame_w :
    ¬ (([1] : List ℝ).getD 0 0 < ([0] : List ℝ).getD 0 0) ∧
    ((updateConfigs 0.2 [[2, 2]] [5] [0] [0] [1] [0] 3 st0).config.getD 0 [] = st0.config.getD 0 [] ∧
    (updateConfigs 0.2 [[2, 2]] [5] [0] [0] [1] [0] 3 st0).recInds.getD 0 [] = st0.recInds.getD 0 [] ∧
    (updateConfigs 0.2 [[2, 2]] [5] [0] [0] [1] [0] 3 st0).E0.getD 0 0 = st0.E0.getD 0 0 ∧
    (updateConfigs 0.2 [[2, 2]] [5] [0] [0] [1] [0] 3 st0).optima.getD 0 [] = st0.optima.getD 0 [] ∧
    (updateConfigs 0.2 [[2, 2]] [5] [0] [0] [1] [0] 3 st0).enAtOptima.getD 0 [] = st0.enAtOptima.getD 0 [] ∧
    (updateConfigs 0.2 [[2, 2]] [5] [0] [0] [1] [0] 3 st0).varAtOptima.getD 0 [] = st0.varAtOptima.getD 0 [] ∧
    (updateConfigs 0.2 [[2, 2]] [5] [0] [0] [1] [0] 3 st0).optimalSamples.getD 0 [] = st0.optimalSamples.getD 0 [] ∧
    (updateConfigs 0.2 [[2, 2]] [5] [0] [0] [1] [0] 3 st0).optimalInds.getD 0 [] = st0.optimalInds.getD 0 [] ∧
    (updateConfigs 0.2 [[2, 2]] [5] [0] [0] [1] [0] 3 st0).newOptima.getD 0 [] = st0.newOptima.getD 0 [] ∧
    (updateConfigs 0.2 [[2, 2]] [5] [0] [0] [1] [0] 3 st0).newOptimaEn.getD 0 [] = st0.newOptimaEn.getD 0 [] ∧
    ∃ t, (updateConfigs 0.2 [[2, 2]] [5] [0] [0] [1] [0] 3 st0).allOptimalConfigs =
      st0.allOptimalConfigs ++ t) :=
  ⟨by norm_num, reject_frame 0.2 [[2, 2]] [5] [0] [0] [1] [0] 3 st0 0 (by norm_num)⟩

/-- C7: on a controller invocation the rolling acceptance rate of
trajectory i equals the number of accepted iterations within the last
100 iterations divided by 100; unless the stagnation reset fires, the
temperature is multiplied by (1 + U) when that rate is below the target
rate and by (1 - U) otherwise; and the temperature stays strictly
positive. -/
theorem annealing_rate_update (ds : DatasetConfig) (tr : ℝ) (iter : ℕ)
    (Us : List ℝ) (fl : List ℕ) (fs : ℕ → ℕ → ℕ) (st : SamplerState) (i : ℕ)
    (hi : i < st.nruns) (hla : st.acceptanceRate.length = st.nruns)
    (hlt : st.temperature.length = st.nruns)
    (hsorted : (st.recInds.getD i []).Sorted (· < ·))
    (hbound : ∀ r ∈ st.recInds.getD i [], r ≤ iter)
    (htemp : 0 < st.temperature.getD i 0) (htemp0 : 0 < st.temp0)
    (hU0 : 0 ≤ Us.getD i 0) (hU1 : Us.getD i 0 < 1) :
    (updateAnnealing ds tr iter Us fl fs st).acceptanceRate.getD i 0 =
      (((st.recInds.getD i []).countP
        (fun r : ℕ => decide ((iter : ℤ) - (r : ℤ) < 100)) : ℕ) : ℝ) / 100 ∧
    (¬ (1000 < (iter : ℤ) - (st.resetInd.getD i 0 : ℤ) ∧
        1000 < (iter : ℤ) - (((st.optimalInds.getD i []).getLastD 0 : ℤ))) →
      (updateAnnealing ds tr iter Us fl fs st).temperature.getD i 0 =
        (if (((st.recInds.getD i []).countP
            (fun r : ℕ => decide ((iter : ℤ) - (r : ℤ) < 100)) : ℕ) : ℝ) / 100 < tr
          then st.temperature.getD i 0 * (1 + Us.getD i 0)
          else st.temperature.getD i 0 * (1 - Us.getD i 0))) ∧
    0 < (updateAnnealing ds tr iter Us fl fs st).temperature.getD i 0 := by
  have hcnt := countP_lastN_window (st.recInds.getD i []) iter hsorted hbound
  refine ⟨?_, ?_, ?_⟩
  · rw [updateAnnealing_rate_at ds tr iter Us fl fs st i hi hla, hcnt]
  · intro hnr
    rw [updateAnnealing_temp_at ds tr iter Us fl fs st i hi hla hlt hnr, hcnt]
  · exact updateAnnealing_temp_pos_at ds tr iter Us fl fs st i hi hla hlt htemp htemp0 hU0 hU1

/-- Witness for annealing_rate_update at a concrete one-trajectory
state at iteration 10 with uniform draw 0. -/
theorem annealing_rate_update_w :
    0 < st0.temperature.getD 0 0 ∧ 0 < st0.temp0 ∧
    ((updateAnnealing ds4 0.234 10 [0] [1] (fun _ _ => 1) st0).acceptanceRate.getD 0 0 =
      (((st0.recInds.getD 0 []).countP
        (fun r : ℕ => decide ((10 : ℤ) - (r : ℤ) < 100)) : ℕ) : ℝ) / 100 ∧
    (¬ (1000 < (10 : ℤ) - (st0.resetInd.getD 0 0 : ℤ) ∧
        1000 < (10 : ℤ) - (((st0.optimalInds.getD 0 []).getLastD 0 : ℤ))) →
      (updateAnnealing ds4 0.234 10 [0] [1] (fun _ _ => 1) st0).temperature.getD 0 0 =
        (if (((st0.recInds.getD 0 []).countP
            (fun r : ℕ => decide ((10 : ℤ) - (r : ℤ) < 100)) : ℕ) : ℝ) / 100 < 0.234
          then st0.temperature.getD 0 0 * (1 + ([0] : List ℝ).getD 0 0)
          else st0.temperature.getD 0 0 * (1 - ([0] : List ℝ).getD 0 0))) ∧
    0 < (updateAnnealing ds4 0.234 10 [0] [1] (fun _ _ => 1) st0).temperature.getD 0 0) :=
  ⟨by norm_num [st0], by norm_num [st0],
    annealing_rate_update ds4 0.234 10 [0] [1] (fun _ _ => 1) st0 0
      (by decide) (by decide) (by decide)
      (by show ([] : List ℕ).Sorted (· < ·); exact List.sorted_nil)
      (by intro r hr; simp [st0] at hr)
      (by norm_num [st0]) (by norm_num [st0]) (by norm_num) (by norm_num)⟩

/-- C6 amended: the controller resets trajectory i exactly when more
than 1000 iterations have passed since its last reset and since its
last recorded strict improvement (the last optimalInds entry, written
only on a new best, not on near-optimum recordings); on reset the
sequence is re-randomized, the temperature is set back to temp0 and the
iteration is recorded; otherwise the trajectory's reset record and
sequence are untouched. -/
theorem stagnation_reset_amended (ds : DatasetConfig) (tr : ℝ) (iter : ℕ)
    (Us : List ℝ) (fl : List ℕ) (fs : ℕ → ℕ → ℕ) (st : SamplerState) (i : ℕ)
    (hi : i < st.nruns) (hlt : st.temperature.length = st.nruns)
    (hlr : st.resetInd.length = st.nruns) (hlc : st.config.length = st.nruns) :
    ((1000 < (iter : ℤ) - (st.resetInd.getD i 0 : ℤ) ∧
        1000 < (iter : ℤ) - (((st.optimalInds.getD i []).getLastD 0 : ℤ))) →
      (updateAnnealing ds tr iter Us fl fs st).resetInd.getD i 0 = iter ∧
      (updateAnnealing ds tr iter Us fl fs st).config.getD i [] =
        makeAConfig ds (fl.getD i 0) (fs i) ∧
      (updateAnnealing ds tr iter Us fl fs st).temperature.getD i 0 = st.temp0) ∧
    (¬ (1000 < (iter : ℤ) - (st.resetInd.getD i 0 : ℤ) ∧
        1000 < (iter : ℤ) - (((st.optimalInds.getD i []).getLastD 0 : ℤ))) →
      (updateAnnealing ds tr iter Us fl fs st).resetInd.getD i 0 = st.resetInd.getD i 0 ∧
      (updateAnnealing ds tr iter Us fl fs st).config.getD i [] = st.config.getD i []) := by
  constructor
  · intro hr
    exact updateAnnealing_reset_at ds tr iter Us fl fs st i hi hlt hlr hlc hr
  · intro hnr
    exact updateAnnealing_noreset_at ds tr iter Us fl fs st i hi hnr

/-- Witness for stagnation_reset_amended at iteration 2000, where the
stagnation condition of the concrete state holds. -/
theorem stagnation_reset_amended_w :
    (1000 < (2000 : ℤ) - (st0.resetInd.getD 0 0 : ℤ) ∧
      1000 < (2000 : ℤ) - (((st0.optimalInds.getD 0 []).getLastD 0 : ℤ))) ∧
    (((1000 < (2000 : ℤ) - (st0.resetInd.getD 0 0 : ℤ) ∧
        1000 < (2000 : ℤ) - (((st0.optimalInds.getD 0 []).getLastD 0 : ℤ))) →
      (updateAnnealing ds4 0.234 2000 [0] [2] (fun _ _ => 3) st0).resetInd.getD 0 0 = 2000 ∧
      (updateAnnealing ds4 0.234 2000 [0] [2] (fun _ _ => 3) st0).config.getD 0 [] =
        makeAConfig ds4 (([2] : List ℕ).getD 0 0) ((fun _ _ => 3) 0) ∧
      (updateAnnealing ds4 0.234 2000 [0] [2] (fun _ _ => 3) st0).temperature.getD 0 0 = st0.temp0) ∧
    (¬ (1000 < (2000 : ℤ) - (st0.resetInd.getD 0 0 : ℤ) ∧
        1000 < (2000 : ℤ) - (((st0.optimalInds.getD 0 []).getLastD 0 : ℤ))) →
      (updateAnnealing ds4 0.234 2000 [0] [2] (fun _ _ => 3) st0).resetInd.getD 0 0 = st0.resetInd.getD 0 0 ∧
      (updateAnnealing ds4 0.234 2000 [0] [2] (fun _ _ => 3) st0).config.getD 0 [] = st0.config.getD 0 [])) :=
  ⟨by decide,
    stagnation_reset_amended ds4 0.234 2000 [0] [2] (fun _ _ => 3) st0 0
      (by decide) (by decide) (by decide) (by decide)⟩

/-- C5 amended: a non-new-best recording first checks exact sequence
equality against the (already seeded) pool, so it preserves pool
distinctness; only new-best recordings bypass the check. -/
theorem dedup_pool_amended (p : List ℕ) (sc en va : ℝ) (iter ind : ℕ)
    (st : SamplerState)
    (hne : st.allOptimalConfigs ≠ [])
    (hlen : ∀ c ∈ st.allOptimalConfigs, c.length = p.length)
    (hnd : st.allOptimalConfigs.Nodup) :
    (saveOptima p sc en va iter ind False st).allOptimalConfigs.Nodup := by
  have hie : st.allOptimalConfigs.isEmpty = false := by
    rw [Bool.eq_false_iff]
    intro h
    exact hne (List.isEmpty_iff.1 h)
  simp only [saveOptima, hie, Bool.false_eq_true, if_false]
  by_cases hip : InPool st.allOptimalConfigs p
  · rw [if_neg (by simp [hip])]
    exact hnd
  · rw [if_pos (Or.inl hip)]
    dsimp only
    rw [List.nodup_append]
    refine ⟨hnd, List.nodup_singleton p, ?_⟩
    intro c hc hcp
    rw [List.mem_singleton] at hcp
    subst hcp
    exact hip ((InPool_iff _ _ hlen).2 hc)

/-- Witness for dedup_pool_amended: recording the absent sequence
[3, 4] without a new best keeps the concrete pool duplicate-free. -/
theorem dedup_pool_amended_w :
    (st0.allOptimalConfigs ≠ [] ∧
      (∀ c ∈ st0.allOptimalConfigs, c.length = ([3, 4] : List ℕ).length) ∧
      st0.allOptimalConfigs.Nodup) ∧
    (saveOptima [3, 4] 5 0 0 9 0 False st0).allOptimalConfigs.Nodup :=
  ⟨⟨by decide, by decide, by decide⟩,
    dedup_pool_amended [3, 4] 5 0 0 9 0 st0 (by decide) (by decide) (by decide)⟩

/-- C4 counterexample: the proposal engine can break the padding
invariant: mutating position 3 (an in-range draw, since positions are
drawn from the whole capacity) of the valid sequence [1, 1, 0, 0]
writes a nonzero symbol into the padding region, so padding is no
longer suffix-only. -/
theorem padding_invariant_cex :
    ValidSeq ds4 [1, 1, 0, 0] ∧
    propOne ds4 [1, 1, 0, 0] 3 2 0 1 = [1, 1, 0, 2] ∧
    ¬ ValidSeq ds4 [1, 1, 0, 2] :=
  ⟨by decide, by decide, by decide⟩

/-- C4 amended: sequence generation establishes the padding invariant,
and the proposal engine preserves it whenever the mutated position lies
within the active length (always the case in fixed-length mode); a
mutation into the padding region can break it. -/
theorem padding_invariant_amended (ds : DatasetConfig) (s : List ℕ)
    (L : ℕ) (syms : ℕ → ℕ) (pick sym : ℕ) (dir : ℤ) (ext : ℕ)
    (hmm : ds.min_length ≤ ds.max_length)
    (hL1 : ds.min_length ≤ L) (hL2 : L ≤ ds.max_length)
    (hsym : ∀ j < ds.max_length, syms j ≠ 0)
    (hvalid : ValidSeq ds s) (hpick : pick < activeLen s)
    (hs : sym ≠ 0) (hx : ext ≠ 0) :
    ValidSeq ds (makeAConfig ds L syms) ∧
    ValidSeq ds (propOne ds s pick sym dir ext) := by
  refine ⟨ValidSeq_makeAConfig ds L syms hmm hL1 hL2 hsym, ?_⟩
  have hset := ValidSeq_set_inside ds s pick sym hvalid hpick hs
  simp only [propOne]
  by_cases hv : ds.variable_length
  · simp only [hv, if_true]
    by_cases h0 : dir = 0
    · rw [if_pos h0]
      exact hset
    · rw [if_neg h0]
      by_cases h1 : dir = 1
      · rw [if_pos h1]
        have hnnz : nnzCount (s.set pick sym) = activeLen (s.set pick sym) :=
          nnzCount_eq_activeLen _ hset.2.2.2
        by_cases hlt : nnzCount (s.set pick sym) < ds.max_length
        · rw [if_pos hlt, hnnz]
          exact ValidSeq_extend ds (s.set pick sym) ext hset hx (by rw [← hnnz]; exact hlt)
        · rw [if_neg hlt]
          exact hset
      · rw [if_neg h1,
          if_neg (show ¬ ((nnzCount (s.set pick sym) : ℤ) = -1) by omega)]
        exact hset
  · simp only [hv, Bool.false_eq_true, if_false]
    exact hset

/-- Witness for padding_invariant_amended at a concrete valid sequence
with an in-active-prefix mutation and a contraction draw. -/
theorem padding_invariant_amended_w :
    (ValidSeq ds4 [1, 2, 0, 0] ∧ 0 < activeLen [1, 2, 0, 0] ∧
      (∀ j < ds4.max_length, (fun _ : ℕ => 1) j ≠ 0)) ∧
    (ValidSeq ds4 (makeAConfig ds4 2 (fun _ => 1)) ∧
      ValidSeq ds4 (propOne ds4 [1, 2, 0, 0] 0 3 (-1) 2)) :=
  ⟨⟨by decide, by decide, by decide⟩,
    padding_invariant_amended ds4 [1, 2, 0, 0] 2 (fun _ => 1) 0 3 (-1) 2
      (by decide) (by decide) (by decide) (by decide) (by decide) (by decide)
      (by decide) (by decide)⟩

/-- C3: the contraction arm of the length-change draw is dead code.
With variable length enabled, active length 3 within [1, 4] and
length-change draw -1, the source tests nnz == -1 (a nonnegative count
against -1), so the last active slot is never zeroed: the proposal
keeps all three active symbols instead of producing the contracted
sequence [2, 2, 0, 0] that the claim describes. -/
theorem change_length_minus_one_dead :
    propOne ds4 [1, 2, 3, 0] 0 2 (-1) 1 = [2, 2, 3, 0] ∧
    ([2, 2, 3, 0] : List ℕ) ≠ [2, 2, 0, 0] :=
  ⟨by decide, by decide⟩

/-- C5 counterexample: the dedup pool already holds [1, 2] (a real
recording, not a seed: the pool is nonempty so no seeding occurs), and
an accepted proposal of the same sequence with a strictly better score
is recorded again through the newBest disjunct, which bypasses the
equality check; the pool then holds two identical entries. -/
theorem dedup_pool_cex :
    st0.allOptimalConfigs.Nodup ∧
    (updateOne 0.2 [[1, 2]] [5] [0] [0] [0] [1] 7 st0 0).allOptimalConfigs =
      [[1, 2], [1, 2]] ∧
    ¬ (updateOne 0.2 [[1, 2]] [5] [0] [0] [0] [1] 7 st0 0).allOptimalConfigs.Nodup := by
  have h1 : (([0] : List ℝ)).getD 0 0 < (([1] : List ℝ)).getD 0 0 := by norm_num
  have h2 : (([5] : List ℝ)).getD 0 0 < (([10] : List ℝ)).getD 0 0 := by norm_num
  have hpool : (updateOne 0.2 [[1, 2]] [5] [0] [0] [0] [1] 7 st0 0).allOptimalConfigs =
      [[1, 2], [1, 2]] := by
    simp only [updateOne, st0]
    rw [if_pos h1]
    rw [if_pos (Or.inl h2)]
    simp only [saveOptima, List.isEmpty_cons, Bool.false_eq_true, if_false]
    rw [if_pos (Or.inr h2)]
    rw [if_pos h2]
    decide
  refine ⟨by decide, hpool, ?_⟩
  rw [hpool]
  decide

/-- C9: the relative-improvement check has no guard at E0 = 0: with
best score E0 = 0 and an accepted proposal of score 1, the source
computes (0 - 1)/0 (a division by zero; -inf in the float
implementation, 0 under the real-division convention here, in both
cases below the record margin 0.2), treats the proposal as near the old
best and records it, where the claim requires a guard treating it as
not near the old best. -/
theorem record_margin_div_zero :
    st9.E0.getD 0 0 = 0 ∧
    (updateOne 0.2 [[1, 2]] [1] [0] [0] [0] [1] 7 st9 0).optima = [[10, 1]] ∧
    (updateOne 0.2 [[1, 2]] [1] [0] [0] [0] [1] 7 st9 0).allOptimalConfigs =
      [[9, 9], [1, 2]] := by
  have h1 : (0 : ℝ) < 1 := by norm_num
  have hdiv : ((0 : ℝ) - 1) / 0 < 0.2 := by norm_num
  have hnb : ¬ ((1 : ℝ) < 0) := by norm_num
  have hnip : ¬ InPool [[9, 9]] [1, 2] := by decide
  refine ⟨by norm_num [st9], ?_, ?_⟩
  · simp only [updateOne, st9, st0, List.getD_cons_zero, List.set_cons_zero,
      List.nil_append, List.append_nil, List.singleton_append, List.cons_append]
    rw [if_pos h1, if_pos (Or.inr hdiv)]
    simp only [saveOptima, List.isEmpty_cons, Bool.false_eq_true, if_false,
      List.getD_cons_zero, List.set_cons_zero, List.nil_append, List.append_nil,
      List.singleton_append, List.cons_append]
    rw [if_pos (Or.inl hnip), if_neg hnb]
  · simp only [updateOne, st9, st0, List.getD_cons_zero, List.set_cons_zero,
      List.nil_append, List.append_nil, List.singleton_append, List.cons_append]
    rw [if_pos h1, if_pos (Or.inr hdiv)]
    simp only [saveOptima, List.isEmpty_cons, Bool.false_eq_true, if_false,
      List.getD_cons_zero, List.set_cons_zero, List.nil_append, List.append_nil,
      List.singleton_append, List.cons_append]
    rw [if_pos (Or.inl hnip), if_neg hnb]

/-- C6 counterexample: a near-optimum that is not a strict improvement
is recorded at iteration 500 (the dedup pool and the optima list grow)
but optimalInds is not updated; the annealing controller at iteration
1200 (only 700 iterations after that recording) still resets the
trajectory, because its stagnation test reads the last optimalInds
entry (last strict improvement, iteration 0), not the last recorded
near-optimum. -/
theorem stagnation_reset_cex :
    (updateOne 0.2 [[1, 2]] [10.5] [0] [0] [0] [1] 500 st6 0).allOptimalConfigs =
      [[9, 9], [1, 2]] ∧
    (updateOne 0.2 [[1, 2]] [10.5] [0] [0] [0] [1] 500 st6 0).optimalInds = [[0]] ∧
    (updateAnnealingOne ds4 0.234 1200 [0] [2] (fun _ _ => 1)
      (updateOne 0.2 [[1, 2]] [10.5] [0] [0] [0] [1] 500 st6 0) 0).resetInd.getD 0 0 =
      1200 := by
  have h1 : (0 : ℝ) < 1 := by norm_num
  have hmargin : ((10 : ℝ) - 10.5) / 10 < 0.2 := by norm_num
  have hnb : ¬ ((10.5 : ℝ) < 10) := by norm_num
  have hnip : ¬ InPool [[9, 9]] [1, 2] := by decide
  have hkey : updateOne 0.2 [[1, 2]] [10.5] [0] [0] [0] [1] 500 st6 0 =
      { st6 with
        config := [[1, 2]]
        recInds := [[500]]
        optima := [[10, 10.5]]
        enAtOptima := [[0, 0]]
        varAtOptima := [[0, 0]]
        optimalSamples := [[[9, 9], [1, 2]]]
        allOptimalConfigs := [[9, 9], [1, 2]] } := by
    simp only [updateOne, st6, st0, List.getD_cons_zero, List.set_cons_zero,
      List.nil_append, List.append_nil, List.singleton_append, List.cons_append]
    rw [if_pos h1, if_pos (Or.inr hmargin)]
    simp only [saveOptima, List.isEmpty_cons, Bool.false_eq_true, if_false,
      List.getD_cons_zero, List.set_cons_zero, List.nil_append, List.append_nil,
      List.singleton_append, List.cons_append]
    rw [if_pos (Or.inl hnip), if_neg hnb]
  refine ⟨by rw [hkey], by rw [hkey]; rfl, ?_⟩
  rw [hkey]
  exact (updAnnOne_reset ds4 0.234 1200 [0] [2] (fun _ _ => 1) _ 0
    (by decide) (by decide) (by decide) (by decide)).1
